import Mathlib

/-!
Verification development for the table-layout inference and addressed-update
engine of a spreadsheet CLI (source: src/sheets.ts, second revision).

The TypeScript source is shallowly embedded here:
* cells are modelled as `String` (the values API serves formatted strings;
  `stringifyCell` of a missing cell is `""`),
* the remote grid of one sheet is `Grid := List (List String)` — exactly the
  2-D `values` array the remote read API would serve for that sheet, with row
  `r` (1-based) at index `r - 1` and column `c` at index `c - 1`,
* every remote interaction is recorded, in program order, in a
  `List RemoteCall`; replies to mutating calls come from an explicit
  `RemoteEnv` parameter (the core never inspects them beyond echoing),
* JavaScript `number` row indices are modelled as `Rat` (every finite float
  is rational; `Number.isFinite` holds for all of `Rat`),
* thrown `Error`s are modelled as structured `SheetErr` values returned in
  `Except`; `SheetErr.message` renders the exact message strings of the code.
-/

/-- Model of the whitespace class used by JS `trim` / `\s` (ASCII part). -/
def jsIsWs (c : Char) : Bool := c.isWhitespace

/-- Model of JS `String.prototype.trim`. -/
def jsTrim (s : String) : String :=
  ⟨((s.data.dropWhile jsIsWs).reverse.dropWhile jsIsWs).reverse⟩

/-- Helper for `replace(/\s+/g, " ")`: collapse each maximal whitespace run
to a single space.  The boolean records whether the previous char was
whitespace. -/
def collapseWsGo : Bool → List Char → List Char
  | _, [] => []
  | prevWs, c :: rest =>
    if jsIsWs c then
      if prevWs then collapseWsGo true rest else ' ' :: collapseWsGo true rest
    else c :: collapseWsGo false rest

/-- `normalizeHeader` from sheets.ts:
`header.trim().replace(/\s+/g, " ").toLowerCase()`. -/
def normalizeHeader (header : String) : String :=
  ⟨(collapseWsGo false (jsTrim header).data).map Char.toLower⟩

/-- `isNonEmptyCell` from sheets.ts: `stringifyCell(cell).trim() !== ""`. -/
def isNonEmptyCell (cell : String) : Bool := decide (jsTrim cell ≠ "")

/-- Decimal digits of a natural number, fuel-bounded (the loop divides by 10
each step, so `fuel = n + 1` always suffices).  Mirrors JS's decimal
rendering of a nonnegative integer. -/
def natToStringGo : Nat → Nat → List Char
  | 0, _ => []
  | fuel + 1, n =>
    if n < 10 then [Char.ofNat (48 + n)]
    else natToStringGo fuel (n / 10) ++ [Char.ofNat (48 + n % 10)]

/-- Model of JS template interpolation `${n}` for a natural number. -/
def natToString (n : Nat) : String := ⟨natToStringGo (n + 1) n⟩

/-- Decimal digits of the fractional part `r / den` (`0 < r < den`),
fuel-bounded.  JS prints the shortest decimal expansion; for fractions with
a finite decimal expansion (the only ones the embedding ever renders) this
function produces exactly that expansion. -/
def fracDigits : Nat → Nat → Nat → List Char
  | 0, _, _ => []
  | fuel + 1, r, den =>
    if r = 0 then []
    else Char.ofNat (48 + r * 10 / den) :: fracDigits fuel (r * 10 % den) den

/-- Model of JS template interpolation `${x}` for a finite `number`,
restricted to values with a finite decimal expansion. -/
def ratToString (q : Rat) : String :=
  let sign : String := if q.num < 0 then "-" else ""
  let a := q.num.natAbs
  let ip := a / q.den
  let r := a % q.den
  sign ++ natToString ip ++
    (if r = 0 then "" else "." ++ (⟨fracDigits 64 r q.den⟩ : String))

/-- Evaluation map for decimal digit lists (proof-side inverse of
`natToStringGo`). -/
def digitsVal (l : List Char) : Nat :=
  l.foldl (fun a c => a * 10 + (c.toNat - 48)) 0

/-- `colToLetter` from sheets.ts, fuel-bounded: the loop sets
`n := (n - 1) / 26` each iteration, which strictly decreases, so
`fuel = col` suffices. -/
def colToLetterGo : Nat → Nat → String
  | 0, _ => ""
  | fuel + 1, n =>
    if n = 0 then ""
    else colToLetterGo fuel ((n - 1) / 26) ++
      (Char.ofNat ((n - 1) % 26 + 65)).toString

/-- `colToLetter(col)` from sheets.ts: 1-based column number to letters. -/
def colToLetter (col : Nat) : String := colToLetterGo col col

/-- One step of the `colLetterToNumber` fold; `none` models `NaN`
(a char code outside 65..90 after upper-casing). -/
def colLetterStep (acc : Option Nat) (c : Char) : Option Nat :=
  match acc with
  | none => none
  | some n =>
    if 65 ≤ c.toNat ∧ c.toNat ≤ 90 then some (n * 26 + (c.toNat - 64))
    else none

/-- `colLetterToNumber(letter)` from sheets.ts:
trim, upper-case, then fold `n = n * 26 + (code - 64)`. -/
def colLetterToNumber (letter : String) : Option Nat :=
  ((jsTrim letter).data.map Char.toUpper).foldl colLetterStep (some 0)

/-- Proof-side value of an (already validated) letter list. -/
def letterVal (l : List Char) : Nat :=
  l.foldl (fun n c => n * 26 + (c.toNat - 64)) 0

/-- `isColumnLetter` from sheets.ts: `/^[A-Za-z]{1,3}$/` on the trimmed
input (`Char.isAlpha` is exactly ASCII `[A-Za-z]`). -/
def isColumnLetter (input : String) : Bool :=
  let t := (jsTrim input).data
  decide (1 ≤ t.length) && decide (t.length ≤ 3) && t.all Char.isAlpha

/-- `/[A-Za-z]/` test (`HAS_ALPHA_REGEX`). -/
def hasAlphaStr (s : String) : Bool := s.data.any Char.isAlpha

/-- `/^-?\d+(\.\d+)?$/` test (`NUMBERISH_REGEX`). -/
def numberishTest (s : String) : Bool :=
  let l := match s.data with
    | c :: rest => if c = '-' then rest else s.data
    | [] => s.data
  let ds := l.takeWhile Char.isDigit
  let rest := l.dropWhile Char.isDigit
  !ds.isEmpty &&
    (rest.isEmpty ||
      (match rest with
        | '.' :: ds2 => !ds2.isEmpty && ds2.all Char.isDigit
        | _ => false))

/-- `/^\d{4}-\d{2}-\d{2}/` test (`DATE_ISO_REGEX`): prefix match. -/
def dateIsoTest (s : String) : Bool :=
  match s.data with
  | y1 :: y2 :: y3 :: y4 :: '-' :: m1 :: m2 :: '-' :: d1 :: d2 :: _ =>
    y1.isDigit && y2.isDigit && y3.isDigit && y4.isDigit &&
      m1.isDigit && m2.isDigit && d1.isDigit && d2.isDigit
  | _ => false

/-- Tail of the slash-date pattern: `\d{1,2}\/\d{2,4}` as a prefix (the final
`\d{2,4}` needs only two digits since the pattern may stop mid-string).
Backtracking makes the two digit-count choices disjoint: the one-digit arm
applies exactly when the second char is `/`. -/
def dateSlashTail (l : List Char) : Bool :=
  match l with
  | a :: '/' :: c :: d :: _ => a.isDigit && c.isDigit && d.isDigit
  | a :: b :: '/' :: c :: d :: _ =>
    a.isDigit && b.isDigit && c.isDigit && d.isDigit
  | _ => false

/-- `/^\d{1,2}\/\d{1,2}\/\d{2,4}/` test (`DATE_SLASH_REGEX`): prefix match
with backtracking semantics. -/
def dateSlashTest (s : String) : Bool :=
  match s.data with
  | a :: '/' :: rest => a.isDigit && dateSlashTail rest
  | a :: b :: '/' :: rest => a.isDigit && b.isDigit && dateSlashTail rest
  | _ => false

/-- `looksDate` in sheets.ts: ISO or slash date pattern. -/
def dateLikeTest (s : String) : Bool := dateIsoTest s || dateSlashTest s

/-- The trimmed non-empty cells of a row
(`first.filter(isNonEmptyCell).map(c => stringifyCell(c).trim())`). -/
def nonEmptyCellsOf (row : List String) : List String :=
  (row.filter (fun c => isNonEmptyCell c)).map jsTrim

/-- `inferHasHeader(sampleRows)` from sheets.ts.  Only the first sample row
is inspected.  The float ratio comparisons are modelled with exact rational
arithmetic: the counts involved are tiny integers, `0.5` is an exact double,
and a quotient of small naturals rounds to the double `0.8` exactly when it
equals `4/5`, so the float and rational comparisons agree. -/
def inferHasHeader (sampleRows : List (List String)) : Bool :=
  let first := sampleRows.headD []
  let nonEmptyCells := nonEmptyCellsOf first
  let n := nonEmptyCells.length
  if n = 0 then false
  else if n = 1 then
    let v := nonEmptyCells.headD ""
    if v = "" then false
    else hasAlphaStr v && !numberishTest v && !dateLikeTest v
  else
    let normalized := nonEmptyCells.map normalizeHeader
    let uniqueFrac : Rat := mkRat normalized.dedup.length n
    let alpha := (nonEmptyCells.filter (fun v => hasAlphaStr v)).length
    let numericLike := (nonEmptyCells.filter (fun v => numberishTest v)).length
    let dateLike := (nonEmptyCells.filter (fun v => dateLikeTest v)).length
    let alphaFrac : Rat := mkRat alpha n
    let numberishFrac : Rat := mkRat (numericLike + dateLike) n
    decide (mkRat 4 5 ≤ uniqueFrac) && decide (mkRat 1 2 ≤ alphaFrac) &&
      decide (numberishFrac ≤ mkRat 1 2)

/-- Association-list model of the JS `Map<string, number>` used to count
seen header names: lookup. -/
def mapGet (m : List (String × Nat)) (k : String) : Option Nat :=
  (m.find? (fun p => decide (p.1 = k))).map (fun p => p.2)

/-- Association-list model of `Map.set` (replace if present, else insert). -/
def mapSet (m : List (String × Nat)) (k : String) (v : Nat) :
    List (String × Nat) :=
  if m.any (fun p => decide (p.1 = k)) then
    m.map (fun p => if p.1 = k then (k, v) else p)
  else m ++ [(k, v)]

/-- `seen === 0 ? base : base + "_" + (seen + 1)` from `buildHeaders`. -/
def mkHeader (base : String) (seen : Nat) : String :=
  if seen = 0 then base else base ++ "_" ++ natToString (seen + 1)

/-- The raw headers computed by `buildHeaders`:
`stringifyCell(rawRow[i]).trim()` for `i < width` (a missing cell
stringifies to `""`). -/
def rawHeadersOf (rawRow : List String) (width : Nat) : List String :=
  (List.range width).map (fun i => jsTrim (rawRow.getD i ""))

/-- The dedup loop of `buildHeaders`: at column `i` the base name is the raw
label, or the column's own letter if blank; `used` counts normalized names
already assigned. -/
def buildHeadersGo (startCol : Nat) :
    Nat → List String → List (String × Nat) → List String
  | _, [], _ => []
  | i, raw :: rest, used =>
    let base := if raw = "" then colToLetter (startCol + i) else raw
    let nrm := normalizeHeader base
    let seen := (mapGet used nrm).getD 0
    mkHeader base seen :: buildHeadersGo startCol (i + 1) rest (mapSet used nrm (seen + 1))

/-- `buildHeaders(rawRow, startCol, width)` from sheets.ts: returns
(resolved headers, raw headers). -/
def buildHeaders (rawRow : List String) (startCol width : Nat) :
    List String × List String :=
  let raws := rawHeadersOf rawRow width
  (buildHeadersGo startCol 0 raws [], raws)

/-- The contents of one remote sheet, as the row-oriented values API serves
them: row `r` (1-based) is entry `r - 1`, column `c` is entry `c - 1` of a
row; absent cells read as `""`. -/
abbrev Grid := List (List String)

/-- `TableLayout` from sheets.ts. -/
structure TableLayout where
  hasHeader : Bool
  headerRow : Nat
  dataStartRow : Nat
  startCol : Nat
  width : Nat
  headers : List String
  rawHeaders : List String
deriving Repr, DecidableEq

/-- One remote API interaction.  `valuesGet` is the only read; the other
three are the mutating calls (`values.append`, `values.batchUpdate`,
`values.update`).  Mutating calls carry the `valueInputOption` actually
sent. -/
inductive RemoteCall where
  | valuesGet (range : String)
  | valuesAppend (range : String) (valueInputOption : String)
      (values : List (List String))
  | batchUpdate (valueInputOption : String)
      (data : List (String × List (List String)))
  | valuesUpdate (range : String) (valueInputOption : String)
      (values : List (List String))
deriving Repr, DecidableEq

/-- Whether a remote call writes to the grid. -/
def RemoteCall.isMutating : RemoteCall → Bool
  | .valuesGet _ => false
  | _ => true

/-- The mutating calls among a trace. -/
def mutCalls (l : List RemoteCall) : List RemoteCall :=
  l.filter (fun c => c.isMutating)

/-- Structured model of the `Error`s thrown by the writer functions. -/
inductive SheetErr where
  | keyColumnNotFound (keyCol : String)
  | multipleMatches (count : Nat) (keyValue : String)
  | rowIndexInvalid
deriving Repr, DecidableEq

/-- The exact message strings built by the code for each error. -/
def SheetErr.message : SheetErr → String
  | .keyColumnNotFound keyCol => "Key column \"" ++ keyCol ++ "\" not found"
  | .multipleMatches count keyValue =>
    "Multiple rows (" ++ natToString count ++ ") match key \"" ++ keyValue ++
      "\". Use --allow-multi to update all."
  | .rowIndexInvalid => "Row index must be a positive integer"

/-- The option bag of the writer functions (the union of their `opts`
types; `allowMulti` is only read by `updateByKey`).  An absent `dryRun`
or `allowMulti` is falsy in JS, so they are plain `Bool`s here. -/
structure WriteOpts where
  valueInputOption : Option String
  dryRun : Bool
  headerRow : Option Nat
  allowMulti : Bool
deriving Repr, DecidableEq

/-- `opts.valueInputOption ?? "USER_ENTERED"`. -/
def vioOf (o : WriteOpts) : String := o.valueInputOption.getD "USER_ENTERED"

/-- Replies of the remote service to mutating calls (`updatedRange` and the
updated row/cell count echoed from `values.append` / `values.update`).
The core only forwards these, so theorems quantify over the environment. -/
structure RemoteEnv where
  appendReply : String → List (List String) → String × Nat
  updateReply : String → List (List String) → String × Nat

/-- A fixed environment for concrete evaluations. -/
def defaultEnv : RemoteEnv :=
  ⟨fun _ _ => ("", 0), fun _ _ => ("", 0)⟩

/-- `escapeSheetName` from sheets.ts: single-quote the name, doubling any
embedded quote characters. -/
def escapeSheetName (sheetName : String) : String :=
  let q := (Char.ofNat 39).toString
  q ++ (⟨sheetName.data.foldr
    (fun c acc => if c = Char.ofNat 39 then c :: c :: acc else c :: acc)
    []⟩ : String) ++ q

/-- Result of `appendRows`. -/
structure AppendRes where
  updatedRange : String
  updatedRows : Nat
  dryRun : Bool
deriving Repr, DecidableEq

/-- Result of `updateByRowIndex`. -/
structure UpdateRowRes where
  updatedCells : Nat
  updatedRange : String
  dryRun : Bool
deriving Repr, DecidableEq

/-- Result of `updateByKey`. -/
structure UpdateKeyRes where
  matchedRows : Nat
  updatedCells : Nat
  updatedRanges : List String
  dryRun : Bool
deriving Repr, DecidableEq

/-- Result of `setRange`. -/
structure SetRangeRes where
  updatedRange : String
  updatedCells : Nat
  dryRun : Bool
deriving Repr, DecidableEq

/-- The empty fallback layout returned when every scan window is empty. -/
def emptyLayout : TableLayout :=
  ⟨false, 0, 1, 1, 0, [], []⟩

/-- Layout built from the first scan window containing a non-empty row
(`getTableLayout`, auto-detection arm).  `rows` is the window's served
values, `idx` the index of the first non-empty row.  The response range of
a `1:n` request always starts at `A1`, so `parseA1Start` yields base row 1
and start column 1. -/
def layoutFromWindow (rows : List (List String)) (idx : Nat) : TableLayout :=
  let slice := (rows.drop idx).take 5
  let width := slice.foldl (fun m r => max m r.length) 0
  let dataRow := 1 + idx
  let header := inferHasHeader slice
  if width = 0 then ⟨false, 0, dataRow, 1, 0, [], []⟩
  else if header then
    let hr := buildHeaders (rows.getD idx []) 1 width
    ⟨true, dataRow, dataRow + 1, 1, width, hr.1, hr.2⟩
  else
    ⟨false, 0, dataRow, 1, width,
      (List.range width).map (fun i => colToLetter (1 + i)), []⟩

/-- The escalating scan of `getTableLayout`: windows `1:20`, `1:50`,
`1:100`, `1:200`; a window whose served rows are all empty (or absent)
falls through to the next. -/
def scanLayout (sheetName : String) (grid : Grid) :
    List Nat → TableLayout × List RemoteCall
  | [] => (emptyLayout, [])
  | n :: rest =>
    let call := RemoteCall.valuesGet
      (escapeSheetName sheetName ++ "!1:" ++ natToString n)
    let rows := grid.take n
    match rows.findIdx? (fun row => row.any (fun c => isNonEmptyCell c)) with
    | none =>
      let r := scanLayout sheetName grid rest
      (r.1, call :: r.2)
    | some i => (layoutFromWindow rows i, [call])

/-- `getTableLayout` from sheets.ts.  With an explicit header row `h` the
single row `h:h` is read (its response range starts at column A, so
`startCol = 1`; the real API rejects `h < 1`, which the CLI never sends).
Otherwise the escalating scan runs. -/
def getTableLayout (grid : Grid) (sheetName : String)
    (headerRow : Option Nat) : TableLayout × List RemoteCall :=
  match headerRow with
  | some h =>
    let call := RemoteCall.valuesGet (escapeSheetName sheetName ++ "!" ++
      natToString h ++ ":" ++ natToString h)
    let rowValues := grid.getD (h - 1) []
    let width := rowValues.length
    let hr := buildHeaders rowValues 1 width
    (⟨true, h, h + 1, 1, width, hr.1, hr.2⟩, [call])
  | none => scanLayout sheetName grid [20, 50, 100, 200]

/-- The `normalizedKeyToValue` map of `appendRows`, as a lookup: JS `Map`
insertion makes the last entry with a given normalized key win. -/
def normLookup (values : List (String × String)) (nk : String) :
    Option String :=
  (values.reverse.find? (fun p => decide (normalizeHeader p.1 = nk))).map
    (fun p => p.2)

/-- Whether an input key enters `colNumberToValue`: a bare column letter
that does not collide with an existing (normalized) raw header.  When the
layout has no header, `headerNorms` is `null` and every column letter
qualifies. -/
def letterQualifies (layout : TableLayout) (key : String) : Bool :=
  isColumnLetter key &&
    !(layout.hasHeader && layout.rawHeaders.any
      (fun rh => decide (normalizeHeader rh = normalizeHeader key)))

/-- The column numbers of the qualifying bare-letter keys
(`colNumberToValue.keys()`; a `NaN` parse is dropped). -/
def letterColsOf (layout : TableLayout) (values : List (String × String)) :
    List Nat :=
  values.filterMap
    (fun p => if letterQualifies layout p.1 then colLetterToNumber p.1 else none)

/-- The `colNumberToValue` map of `appendRows`, as a lookup by column
number (last qualifying entry with that column number wins). -/
def colNumLookup (layout : TableLayout) (values : List (String × String))
    (c : Nat) : Option String :=
  (values.reverse.find? (fun p =>
    letterQualifies layout p.1 && decide (colLetterToNumber p.1 = some c))).map
    (fun p => p.2)

/-- `maxColFromInput` of `appendRows`. -/
def maxColFromInput (layout : TableLayout)
    (values : List (String × String)) : Nat :=
  (letterColsOf layout values).foldl max 0

/-- The full-width row built by `appendRows` for a non-empty table: per
column, (1) qualifying bare-letter value, (2) `""` if the layout has no
header, else (3) value keyed by the normalized raw header, (4) value keyed
by the display header, (5) `""`. -/
def buildAppendRow (layout : TableLayout) (values : List (String × String))
    (targetWidth : Nat) : List String :=
  (List.range targetWidth).map (fun i =>
    let colNum := layout.startCol + i
    match colNumLookup layout values colNum with
    | some v => v
    | none =>
      if !layout.hasHeader then ""
      else
        match normLookup values (normalizeHeader (layout.rawHeaders.getD i "")) with
        | some v => v
        | none =>
          (normLookup values (normalizeHeader (layout.headers.getD i ""))).getD "")

/-- `appendRows` from sheets.ts. -/
def appendRows (env : RemoteEnv) (grid : Grid) (sheetName : String)
    (values : List (String × String)) (opts : WriteOpts) :
    (Except SheetErr AppendRes) × List RemoteCall :=
  let quoted := escapeSheetName sheetName
  let lr := getTableLayout grid sheetName opts.headerRow
  let layout := lr.1
  if layout.width == 0 && !values.isEmpty then
    let rawKeys := values.map (fun p => p.1)
    let width := rawKeys.length
    let headers := (buildHeaders rawKeys 1 width).1
    let row := rawKeys.map (fun h => (normLookup values (normalizeHeader h)).getD "")
    if opts.dryRun then
      (.ok ⟨quoted ++ "!A1", 2, true⟩, lr.2)
    else
      let rng := quoted ++ "!A1"
      let reply := env.appendReply rng [headers, row]
      (.ok ⟨reply.1, reply.2, false⟩,
        lr.2 ++ [RemoteCall.valuesAppend rng (vioOf opts) [headers, row]])
  else
    let maxCol := maxColFromInput layout values
    let targetWidth : Nat :=
      if 0 < maxCol then
        (max (layout.width : Int) ((maxCol : Int) - layout.startCol + 1)).toNat
      else layout.width
    let row := buildAppendRow layout values targetWidth
    if opts.dryRun then
      (.ok ⟨quoted ++ "!" ++ colToLetter layout.startCol ++
        natToString layout.dataStartRow, 1, true⟩, lr.2)
    else
      let rng := quoted ++ "!" ++ colToLetter layout.startCol ++
        natToString (if layout.hasHeader then layout.headerRow else layout.dataStartRow)
      let reply := env.appendReply rng [row]
      (.ok ⟨reply.1, reply.2, false⟩,
        lr.2 ++ [RemoteCall.valuesAppend rng (vioOf opts) [row]])

/-- Column resolution shared by `updateByRowIndex` and `updateByKey` (and
the key-column resolution of `updateByKey`): first a normalized match
against the raw headers (when the layout has a header), then a bare-letter
fallback; the final `some 0 → none` mirrors the JS falsiness check
`if (!colNum)` (unreachable here since valid letters map to ≥ 1). -/
def resolveSetCol (layout : TableLayout) (key : String) : Option Nat :=
  let viaHeader : Option Nat :=
    if layout.hasHeader then
      match layout.rawHeaders.findIdx?
        (fun rh => decide (normalizeHeader rh = normalizeHeader key)) with
      | some idx => some (layout.startCol + idx)
      | none => none
    else none
  let colNum :=
    match viaHeader with
    | some c => some c
    | none => if isColumnLetter key then colLetterToNumber key else none
  match colNum with
  | some 0 => none
  | some c => some c
  | none => none

/-- The single-cell update list built for one row: one
`(range, [[value]])` per key of `setValues` that resolves to a column;
unresolved keys are skipped. -/
def rowUpdatesOf (quoted : String) (layout : TableLayout) (rowStr : String)
    (setValues : List (String × String)) :
    List (String × List (List String)) :=
  setValues.filterMap (fun p =>
    match resolveSetCol layout p.1 with
    | none => none
    | some c => some (quoted ++ "!" ++ colToLetter c ++ rowStr, [[p.2]]))

/-- `updates.map(u => u.range).join(", ")`. -/
def joinRanges (updates : List (String × List (List String))) : String :=
  String.intercalate ", " (updates.map (fun u => u.1))

/-- `updateByRowIndex` from sheets.ts.  `rowIndex` models the JS `number`
argument as a rational (`Number.isFinite` holds for every rational, so the
guard reduces to `rowIndex < 1`). -/
def updateByRowIndex (_env : RemoteEnv) (grid : Grid) (sheetName : String)
    (rowIndex : Rat) (setValues : List (String × String))
    (opts : WriteOpts) : (Except SheetErr UpdateRowRes) × List RemoteCall :=
  if rowIndex < 1 then (.error .rowIndexInvalid, [])
  else
    let quoted := escapeSheetName sheetName
    let lr := getTableLayout grid sheetName opts.headerRow
    let updates := rowUpdatesOf quoted lr.1 (ratToString rowIndex) setValues
    if opts.dryRun then
      (.ok ⟨updates.length, joinRanges updates, true⟩, lr.2)
    else if updates.isEmpty then
      (.ok ⟨0, "", false⟩, lr.2)
    else
      (.ok ⟨updates.length, joinRanges updates, false⟩,
        lr.2 ++ [RemoteCall.batchUpdate (vioOf opts) updates])

/-- The key column as served by a `'{sheet}'!L{dataStartRow}:L` read: the
cell at `keyColNum` of every row from `dataStartRow` down, with the
trailing run of absent (empty) cells omitted, as the values API does. -/
def keyColumnCells (grid : Grid) (dataStartRow keyColNum : Nat) :
    List String :=
  (((grid.drop (dataStartRow - 1)).map
    (fun r => r.getD (keyColNum - 1) "")).reverse.dropWhile
      (fun c => decide (c = ""))).reverse

/-- The matching absolute row numbers of `updateByKey`: trimmed exact
comparison of each served key cell against the trimmed key value; the
response range of the column read starts at `dataStartRow`. -/
def matchingRowsOf (grid : Grid) (dataStartRow keyColNum : Nat)
    (keyValue : String) : List Nat :=
  (keyColumnCells grid dataStartRow keyColNum).enum.filterMap (fun p =>
    if jsTrim p.2 = jsTrim keyValue then some (dataStartRow + p.1) else none)

/-- The update list of `updateByKey`: the per-row single-cell updates for
every matching row, in row order. -/
def keyUpdatesOf (quoted : String) (layout : TableLayout) (rows : List Nat)
    (setValues : List (String × String)) :
    List (String × List (List String)) :=
  rows.flatMap (fun rn => rowUpdatesOf quoted layout (natToString rn) setValues)

/-- `updateByKey` from sheets.ts. -/
def updateByKey (_env : RemoteEnv) (grid : Grid) (sheetName : String)
    (keyCol : String) (keyValue : String)
    (setValues : List (String × String)) (opts : WriteOpts) :
    (Except SheetErr UpdateKeyRes) × List RemoteCall :=
  let quoted := escapeSheetName sheetName
  let lr := getTableLayout grid sheetName opts.headerRow
  let layout := lr.1
  match resolveSetCol layout keyCol with
  | none => (.error (.keyColumnNotFound keyCol), lr.2)
  | some keyColNum =>
    let kl := colToLetter keyColNum
    let gets := lr.2 ++ [RemoteCall.valuesGet (quoted ++ "!" ++ kl ++
      natToString layout.dataStartRow ++ ":" ++ kl)]
    let mrows := matchingRowsOf grid layout.dataStartRow keyColNum keyValue
    if mrows.isEmpty then
      (.ok ⟨0, 0, [], opts.dryRun⟩, gets)
    else if decide (1 < mrows.length) && !opts.allowMulti then
      (.error (.multipleMatches mrows.length keyValue), gets)
    else
      let updates := keyUpdatesOf quoted layout mrows setValues
      if opts.dryRun then
        (.ok ⟨mrows.length, updates.length, updates.map (fun u => u.1), true⟩,
          gets)
      else if updates.isEmpty then
        (.ok ⟨mrows.length, 0, [], false⟩, gets)
      else
        (.ok ⟨mrows.length, updates.length, updates.map (fun u => u.1), false⟩,
          gets ++ [RemoteCall.batchUpdate (vioOf opts) updates])

/-- `setRange` from sheets.ts: a literal block write with no resolution. -/
def setRange (env : RemoteEnv) (range : String)
    (values : List (List String)) (opts : WriteOpts) :
    (Except SheetErr SetRangeRes) × List RemoteCall :=
  if opts.dryRun then
    (.ok ⟨range, values.foldl (fun acc r => acc + r.length) 0, true⟩, [])
  else
    let reply := env.updateReply range values
    (.ok ⟨reply.1, reply.2, false⟩,
      [RemoteCall.valuesUpdate range (vioOf opts) values])

/-- Proof-side view of the base names `buildHeadersGo` assigns: the raw
label, or the column's letter when blank. -/
def basesOf (startCol : Nat) : Nat → List String → List String
  | _, [] => []
  | i, raw :: rest =>
    (if raw = "" then colToLetter (startCol + i) else raw) :: basesOf startCol (i + 1) rest

/-- How many of `bs` normalize to `s`. -/
def normCount (bs : List String) (s : String) : Nat :=
  bs.countP (fun b => decide (normalizeHeader b = s))

/-- Proof-side restatement of the dedup loop over base names: each name
receives the count of earlier names (including `prev`) sharing its
normalization. -/
def dedupNames (prev : List String) : List String → List String
  | [] => []
  | b :: rest =>
    mkHeader b (normCount prev (normalizeHeader b)) :: dedupNames (prev ++ [b]) rest

/-- Decidable suffix-independence of a list of base names: no base name
textually equals another base name with a `_k` dedup suffix attached
(`2 ≤ k ≤ length + 1`, the only suffixes the build pass can produce). -/
def suffixFreeB (bs : List String) : Bool :=
  bs.all (fun b1 => bs.all (fun b2 =>
    (List.range (bs.length + 2)).all (fun k =>
      decide (k < 2) || decide (b1 ≠ b2 ++ "_" ++ natToString k))))

theorem toNat_ofNat_small (n : Nat) (h : n < 55296) : (Char.ofNat n).toNat = n := by
  have hv : Nat.isValidChar n := Or.inl h
  simp only [Char.ofNat, dif_pos hv]
  rfl

theorem jsIsWs_false_of_ge (c : Char) (h : 48 ≤ c.toNat) : jsIsWs c = false := by
  simp only [jsIsWs, Char.isWhitespace, Bool.or_eq_false_iff,
    decide_eq_false_iff_not]
  refine ⟨⟨⟨?_, ?_⟩, ?_⟩, ?_⟩ <;> rintro rfl <;> revert h <;> decide

theorem dropWhile_eq_self_of_all {p : Char → Bool} (l : List Char)
    (h : ∀ c ∈ l, p c = false) : l.dropWhile p = l := by
  cases l with
  | nil => rfl
  | cons c rest =>
    rw [List.dropWhile_cons, h c (List.mem_cons_self c rest)]
    simp

theorem jsTrim_mk_eq (l : List Char) (h : ∀ c ∈ l, jsIsWs c = false) :
    jsTrim ⟨l⟩ = ⟨l⟩ := by
  show String.mk _ = _
  rw [show (String.mk l).data = l from rfl, dropWhile_eq_self_of_all l h,
    dropWhile_eq_self_of_all l.reverse
      (fun c hc => h c (List.mem_reverse.mp hc)),
    List.reverse_reverse]

theorem toUpper_fix (c : Char) (h : c.toNat ≤ 90) : c.toUpper = c := by
  simp only [Char.toUpper]
  rw [if_neg]
  rintro ⟨h1, _⟩
  omega

theorem natToStringGo_digits :
    ∀ fuel n, ∀ c ∈ natToStringGo fuel n, 48 ≤ c.toNat ∧ c.toNat ≤ 57 := by
  intro fuel
  induction fuel with
  | zero => intro n c hc; simp [natToStringGo] at hc
  | succ f ih =>
    intro n c hc
    simp only [natToStringGo] at hc
    split at hc
    · rename_i hlt
      simp only [List.mem_singleton] at hc
      subst hc
      rw [toNat_ofNat_small (48 + n) (by omega)]
      omega
    · rcases List.mem_append.1 hc with hc | hc
      · exact ih _ c hc
      · simp only [List.mem_singleton] at hc
        subst hc
        rw [toNat_ofNat_small (48 + n % 10) (by omega)]
        omega

theorem natToStringGo_ne_nil :
    ∀ fuel n, n < fuel → natToStringGo fuel n ≠ [] := by
  intro fuel n h
  match fuel with
  | f + 1 =>
    simp only [natToStringGo]
    split
    · simp
    · simp

theorem digitsVal_append1 (xs : List Char) (c : Char) :
    digitsVal (xs ++ [c]) = digitsVal xs * 10 + (c.toNat - 48) := by
  simp [digitsVal, List.foldl_append]

theorem digitsVal_natToStringGo :
    ∀ fuel n, n < fuel → digitsVal (natToStringGo fuel n) = n := by
  intro fuel
  induction fuel with
  | zero => intro n h; omega
  | succ f ih =>
    intro n h
    simp only [natToStringGo]
    split
    · rename_i hlt
      simp only [digitsVal, List.foldl]
      rw [toNat_ofNat_small (48 + n) (by omega)]
      omega
    · rename_i hge
      rw [digitsVal_append1, ih (n / 10) (by omega),
        toNat_ofNat_small (48 + n % 10) (by omega)]
      omega

theorem natToString_inj {m n : Nat} (h : natToString m = natToString n) :
    m = n := by
  have hd : natToStringGo (m + 1) m = natToStringGo (n + 1) n :=
    congrArg String.data h
  have h1 := digitsVal_natToStringGo (m + 1) m (Nat.lt_succ_self m)
  have h2 := digitsVal_natToStringGo (n + 1) n (Nat.lt_succ_self n)
  rw [← h1, hd, h2]

theorem natToString_no_underscore (n : Nat) :
    ∀ c ∈ (natToString n).data, c ≠ '_' := by
  intro c hc he
  have := natToStringGo_digits (n + 1) n c hc
  subst he
  revert this
  decide

theorem natToString_ne_nil (n : Nat) : (natToString n).data ≠ [] :=
  natToStringGo_ne_nil (n + 1) n (Nat.lt_succ_self n)

theorem firstMark :
    ∀ (u1 u2 v1 v2 : List Char), (∀ c ∈ u1, c ≠ '_') → (∀ c ∈ u2, c ≠ '_') →
      u1 ++ '_' :: v1 = u2 ++ '_' :: v2 → u1 = u2 ∧ v1 = v2 := by
  intro u1
  induction u1 with
  | nil =>
    intro u2 v1 v2 _ h2 he
    cases u2 with
    | nil => simpa using he
    | cons d u2' =>
      exfalso
      simp only [List.nil_append, List.cons_append, List.cons.injEq] at he
      exact h2 d (List.mem_cons_self d u2') he.1.symm
  | cons c u1' ih =>
    intro u2 v1 v2 h1 h2 he
    cases u2 with
    | nil =>
      exfalso
      simp only [List.cons_append, List.nil_append, List.cons.injEq] at he
      exact h1 c (List.mem_cons_self c u1') he.1
    | cons d u2' =>
      simp only [List.cons_append, List.cons.injEq] at he
      obtain ⟨rfl, he⟩ := he
      obtain ⟨hu, hv⟩ := ih u2' v1 v2
        (fun x hx => h1 x (List.mem_cons_of_mem c hx))
        (fun x hx => h2 x (List.mem_cons_of_mem c hx)) he
      exact ⟨by rw [hu], hv⟩

theorem rev_mark (xs ys : List Char) :
    (xs ++ '_' :: ys).reverse = ys.reverse ++ '_' :: xs.reverse := by
  simp

theorem suffix_decomp {b1 b2 : String} {k1 k2 : Nat}
    (h : b1 ++ "_" ++ natToString k1 = b2 ++ "_" ++ natToString k2) :
    b1 = b2 ∧ k1 = k2 := by
  have hd : b1.data ++ '_' :: (natToString k1).data =
      b2.data ++ '_' :: (natToString k2).data := by
    have h' := congrArg String.data h
    simpa [String.data_append] using h'
  have hr := congrArg List.reverse hd
  rw [rev_mark, rev_mark] at hr
  obtain ⟨h1, h2⟩ := firstMark _ _ _ _
    (fun c hc => natToString_no_underscore k1 c (List.mem_reverse.mp hc))
    (fun c hc => natToString_no_underscore k2 c (List.mem_reverse.mp hc)) hr
  constructor
  · exact String.ext (List.reverse_injective h2)
  · exact natToString_inj (String.ext (List.reverse_injective h1))

theorem colToLetterGo_congr :
    ∀ n f1 f2, n ≤ f1 → n ≤ f2 → colToLetterGo f1 n = colToLetterGo f2 n := by
  intro n
  induction n using Nat.strong_induction_on with
  | _ n ih =>
    intro f1 f2 h1 h2
    match f1, f2 with
    | 0, f2 =>
      have : n = 0 := Nat.le_zero.mp h1
      subst this
      match f2 with
      | 0 => rfl
      | g + 1 => simp [colToLetterGo]
    | f1 + 1, 0 =>
      have : n = 0 := Nat.le_zero.mp h2
      subst this
      simp [colToLetterGo]
    | f1 + 1, f2 + 1 =>
      simp only [colToLetterGo]
      by_cases hn : n = 0
      · simp [hn]
      · rw [if_neg hn, if_neg hn,
          ih ((n - 1) / 26) (by omega) f1 f2 (by omega) (by omega)]

theorem colToLetter_unfold (n : Nat) (hn : n ≠ 0) :
    colToLetter n = colToLetter ((n - 1) / 26) ++
      (Char.ofNat ((n - 1) % 26 + 65)).toString := by
  obtain ⟨m, rfl⟩ : ∃ m, n = m + 1 := ⟨n - 1, by omega⟩
  show colToLetterGo (m + 1) (m + 1) = _
  simp only [colToLetterGo]
  rw [if_neg hn]
  have : colToLetterGo m ((m + 1 - 1) / 26) = colToLetter ((m + 1 - 1) / 26) :=
    colToLetterGo_congr ((m + 1 - 1) / 26) m ((m + 1 - 1) / 26)
      (by omega) (le_refl _)
  rw [this]

theorem colToLetter_chars :
    ∀ n, ∀ c ∈ (colToLetter n).data, 65 ≤ c.toNat ∧ c.toNat ≤ 90 := by
  intro n
  induction n using Nat.strong_induction_on with
  | _ n ih =>
    intro c hc
    by_cases hn : n = 0
    · subst hn; simp [colToLetter, colToLetterGo] at hc
    · rw [colToLetter_unfold n hn, String.data_append] at hc
      rcases List.mem_append.1 hc with hc | hc
      · exact ih ((n - 1) / 26) (by omega) c hc
      · have : c = Char.ofNat ((n - 1) % 26 + 65) := by
          have hs : ((Char.ofNat ((n - 1) % 26 + 65)).toString).data =
              [Char.ofNat ((n - 1) % 26 + 65)] := rfl
          rw [hs] at hc
          simpa using hc
        subst this
        rw [toNat_ofNat_small _ (by omega)]
        omega

theorem letterVal_colToLetter :
    ∀ n, letterVal (colToLetter n).data = n := by
  intro n
  induction n using Nat.strong_induction_on with
  | _ n ih =>
    by_cases hn : n = 0
    · subst hn; rfl
    · rw [colToLetter_unfold n hn, String.data_append]
      have hsingle : ((Char.ofNat ((n - 1) % 26 + 65)).toString).data =
          [Char.ofNat ((n - 1) % 26 + 65)] := rfl
      rw [hsingle]
      show List.foldl _ 0 (_ ++ [_]) = n
      rw [List.foldl_append]
      have ihv : letterVal (colToLetter ((n - 1) / 26)).data = (n - 1) / 26 :=
        ih ((n - 1) / 26) (by omega)
      show letterVal (colToLetter ((n - 1) / 26)).data * 26 +
        ((Char.ofNat ((n - 1) % 26 + 65)).toNat - 64) = n
      rw [ihv, toNat_ofNat_small _ (by omega)]
      omega

theorem foldl_colLetterStep_of_inRange (l : List Char)
    (h : ∀ c ∈ l, 65 ≤ c.toNat ∧ c.toNat ≤ 90) :
    ∀ a, l.foldl colLetterStep (some a) =
      some (l.foldl (fun n c => n * 26 + (c.toNat - 64)) a) := by
  induction l with
  | nil => intro a; rfl
  | cons c rest ih =>
    intro a
    have hc := h c (List.mem_cons_self c rest)
    simp only [List.foldl, colLetterStep, if_pos hc]
    exact ih (fun x hx => h x (List.mem_cons_of_mem c hx)) _

theorem map_toUpper_fix (l : List Char)
    (h : ∀ c ∈ l, 65 ≤ c.toNat ∧ c.toNat ≤ 90) : l.map Char.toUpper = l := by
  induction l with
  | nil => rfl
  | cons c rest ih =>
    simp only [List.map_cons, toUpper_fix c (h c (List.mem_cons_self c rest)).2,
      ih (fun x hx => h x (List.mem_cons_of_mem c hx))]

theorem colLetterToNumber_colToLetter (n : Nat) :
    colLetterToNumber (colToLetter n) = some n := by
  unfold colLetterToNumber
  have hchars := colToLetter_chars n
  have htrim : jsTrim (colToLetter n) = colToLetter n := by
    have := jsTrim_mk_eq (colToLetter n).data
      (fun c hc => jsIsWs_false_of_ge c (by have := hchars c hc; omega))
    simpa using this
  rw [htrim, map_toUpper_fix _ hchars,
    foldl_colLetterStep_of_inRange _ hchars 0]
  exact congrArg some (letterVal_colToLetter n)

theorem colToLetter_letterVal (l : List Char) (hne : l ≠ [])
    (h : ∀ c ∈ l, 65 ≤ c.toNat ∧ c.toNat ≤ 90) :
    colToLetter (letterVal l) = ⟨l⟩ := by
  induction l using List.reverseRecOn with
  | nil => exact absurd rfl hne
  | append_singleton l' c ih =>
    have hc := h c (by simp)
    have hval : letterVal (l' ++ [c]) = letterVal l' * 26 + (c.toNat - 64) := by
      show List.foldl _ 0 (l' ++ [c]) = _
      rw [List.foldl_append]
      rfl
    rw [hval]
    set v := letterVal l' with hv
    set d := c.toNat - 64 with hd
    have hd1 : 1 ≤ d := by omega
    have hd26 : d ≤ 26 := by omega
    have hnz : v * 26 + d ≠ 0 := by omega
    rw [colToLetter_unfold _ hnz]
    have hdiv : (v * 26 + d - 1) / 26 = v := by omega
    have hmod : (v * 26 + d - 1) % 26 = d - 1 := by omega
    rw [hdiv, hmod]
    have hchar : Char.ofNat (d - 1 + 65) = c := by
      have : d - 1 + 65 = c.toNat := by omega
      rw [this, Char.ofNat_toNat]
    rw [hchar]
    by_cases hl' : l' = []
    · subst hl'
      show colToLetter 0 ++ _ = _
      rfl
    · rw [ih hl' (fun x hx => h x (List.mem_append_left [c] hx))]
      refine String.ext ?_
      show ({ data := l' } : String).data ++ c.toString.data = l' ++ [c]
      rfl

theorem find?_map_setKey (m : List (String × Nat)) (k : String) (v : Nat)
    (s : String) (hs : s ≠ k) :
    (m.map (fun p => if p.1 = k then (k, v) else p)).find?
        (fun p => decide (p.1 = s)) =
      m.find? (fun p => decide (p.1 = s)) := by
  induction m with
  | nil => rfl
  | cons a m ih =>
    by_cases ha : a.1 = k
    · simp only [List.map_cons, if_pos ha, List.find?_cons]
      have h1 : (decide (k = s)) = false := by
        simp only [decide_eq_false_iff_not]
        exact fun h => hs h.symm
      have h2 : (decide (a.1 = s)) = false := by
        simp only [decide_eq_false_iff_not]
        intro h
        exact hs (by rw [← h, ha])
      rw [h1, h2, ih]
    · simp only [List.map_cons, if_neg ha, List.find?_cons]
      cases hda : decide (a.1 = s) with
      | true => rfl
      | false => rw [ih]

theorem mapGet_mapSet (m : List (String × Nat)) (k : String) (v : Nat)
    (s : String) :
    mapGet (mapSet m k v) s = if s = k then some v else mapGet m s := by
  unfold mapGet mapSet
  by_cases hany : m.any (fun p => decide (p.1 = k)) = true
  · rw [if_pos hany]
    by_cases hs : s = k
    · subst hs
      rw [if_pos rfl]
      induction m with
      | nil => simp at hany
      | cons a m ih =>
        simp only [List.any_cons, Bool.or_eq_true, decide_eq_true_eq] at hany
        by_cases ha : a.1 = s
        · rw [List.map_cons, if_pos ha,
            List.find?_cons_of_pos _ (by simp)]
          simp
        · rcases hany with hany | hany
          · exact absurd hany ha
          · rw [List.map_cons, if_neg ha,
              List.find?_cons_of_neg _ (by simpa using ha)]
            exact ih hany
    · rw [if_neg hs, find?_map_setKey m k v s hs]
  · rw [if_neg hany]
    simp only [Bool.not_eq_true, List.any_eq_false, decide_eq_true_eq] at hany
    rw [List.find?_append]
    by_cases hs : s = k
    · subst hs
      have hnone : m.find? (fun p => decide (p.1 = s)) = none := by
        rw [List.find?_eq_none]
        intro p hp
        simp only [decide_eq_true_eq]
        exact hany p hp
      rw [hnone, if_pos rfl]
      simp
    · rw [if_neg hs]
      have hnone : ([(k, v)] : List (String × Nat)).find?
          (fun p => decide (p.1 = s)) = none := by
        rw [List.find?_eq_none]
        intro p hp
        simp only [List.mem_singleton] at hp
        subst hp
        simp only [decide_eq_true_eq]
        exact fun h => hs h.symm
      rw [hnone]
      simp

theorem normCount_append (xs ys : List String) (s : String) :
    normCount (xs ++ ys) s = normCount xs s + normCount ys s :=
  List.countP_append _ xs ys

theorem normCount_singleton_self (b : String) :
    normCount [b] (normalizeHeader b) = 1 := by
  simp [normCount, List.countP_cons]

theorem normCount_singleton_ne (b : String) (s : String)
    (h : normalizeHeader b ≠ s) : normCount [b] s = 0 := by
  simp [normCount, List.countP_cons, h]

theorem buildHeadersGo_eq_dedupNames (sc : Nat) :
    ∀ (raws : List String) (i : Nat) (used : List (String × Nat))
      (prev : List String),
      (∀ s, (mapGet used s).getD 0 = normCount prev s) →
      buildHeadersGo sc i raws used = dedupNames prev (basesOf sc i raws) := by
  intro raws
  induction raws with
  | nil => intro i used prev _; rfl
  | cons raw rest ih =>
    intro i used prev hinv
    simp only [buildHeadersGo, basesOf, dedupNames]
    set base := if raw = "" then colToLetter (sc + i) else raw with hbase
    congr 1
    · rw [hinv (normalizeHeader base)]
    · apply ih
      intro s
      rw [mapGet_mapSet]
      by_cases hs : s = normalizeHeader base
      · rw [if_pos hs, normCount_append, hs, normCount_singleton_self,
          ← hinv (normalizeHeader base)]
        simp
      · rw [if_neg hs, normCount_append,
          normCount_singleton_ne base s (fun h => hs h.symm), hinv s]
        omega

theorem buildHeaders_fst_eq (rawRow : List String) (sc width : Nat) :
    (buildHeaders rawRow sc width).1 =
      dedupNames [] (basesOf sc 0 (rawHeadersOf rawRow width)) := by
  apply buildHeadersGo_eq_dedupNames
  intro s
  rfl

theorem mem_dedupNames :
    ∀ (bs prev : List String) (x : String), x ∈ dedupNames prev bs →
      ∃ pre b post, bs = pre ++ b :: post ∧
        x = mkHeader b (normCount (prev ++ pre) (normalizeHeader b)) := by
  intro bs
  induction bs with
  | nil => intro prev x hx; simp [dedupNames] at hx
  | cons b rest ih =>
    intro prev x hx
    simp only [dedupNames, List.mem_cons] at hx
    rcases hx with hx | hx
    · refine ⟨[], b, rest, rfl, ?_⟩
      rw [List.append_nil]
      exact hx
    · obtain ⟨pre, b', post, hrest, hx⟩ := ih (prev ++ [b]) x hx
      refine ⟨b :: pre, b', post, by rw [hrest]; simp, ?_⟩
      rw [hx]
      congr 2
      simp

theorem normCount_le_length (bs : List String) (s : String) :
    normCount bs s ≤ bs.length :=
  List.countP_le_length _

theorem normCount_mid (prev pre : List String) (b : String) :
    normCount (prev ++ [b] ++ pre) (normalizeHeader b) =
      normCount prev (normalizeHeader b) + 1 +
        normCount pre (normalizeHeader b) := by
  rw [normCount_append, normCount_append, normCount_singleton_self]

theorem dedupNames_nodup :
    ∀ (bs prev : List String),
      (∀ b1 ∈ prev ++ bs, ∀ b2 ∈ prev ++ bs, ∀ k, 2 ≤ k →
        k ≤ (prev ++ bs).length + 1 → b1 ≠ b2 ++ "_" ++ natToString k) →
      (dedupNames prev bs).Nodup := by
  intro bs
  induction bs with
  | nil => intro prev _; exact List.nodup_nil
  | cons b rest ih =>
    intro prev H
    simp only [dedupNames]
    rw [List.nodup_cons]
    constructor
    · intro hmem
      obtain ⟨pre, b', post, hrest, hx⟩ := mem_dedupNames rest (prev ++ [b]) _ hmem
      have hbmem : b ∈ prev ++ b :: rest := by simp
      have hb'mem : b' ∈ prev ++ b :: rest := by
        rw [hrest]
        simp
      have hlen : (prev ++ b :: rest).length = prev.length + rest.length + 1 := by
        simp only [List.length_append, List.length_cons]
        omega
      have hc0le : normCount prev (normalizeHeader b) ≤ prev.length :=
        normCount_le_length prev _
      have hc'le : normCount (prev ++ [b] ++ pre) (normalizeHeader b') ≤
          prev.length + 1 + pre.length := by
        have hb := normCount_le_length (prev ++ [b] ++ pre) (normalizeHeader b')
        have hl : (prev ++ [b] ++ pre).length = prev.length + 1 + pre.length := by
          simp only [List.length_append, List.length_cons, List.length_nil]
        rw [hl] at hb
        exact hb
      have hprelen : pre.length ≤ rest.length := by
        rw [hrest]
        simp
      by_cases h0 : normCount prev (normalizeHeader b) = 0 <;>
        by_cases h1 : normCount (prev ++ [b] ++ pre) (normalizeHeader b') = 0
      · have hb : b = b' := by
          unfold mkHeader at hx
          rw [if_pos h0, if_pos h1] at hx
          exact hx
        have h2 : normCount prev (normalizeHeader b) + 1 ≤
            normCount (prev ++ [b] ++ pre) (normalizeHeader b') := by
          rw [← hb, normCount_mid]
          omega
        omega
      · have hx' : b = b' ++ "_" ++ natToString
            (normCount (prev ++ [b] ++ pre) (normalizeHeader b') + 1) := by
          unfold mkHeader at hx
          rw [if_pos h0, if_neg h1] at hx
          exact hx
        exact H b hbmem b' hb'mem _ (by omega) (by omega) hx'
      · have hx' : b ++ "_" ++ natToString
            (normCount prev (normalizeHeader b) + 1) = b' := by
          unfold mkHeader at hx
          rw [if_neg h0, if_pos h1] at hx
          exact hx
        exact H b' hb'mem b hbmem _ (by omega) (by omega) hx'.symm
      · have hx' : b ++ "_" ++ natToString
              (normCount prev (normalizeHeader b) + 1) =
            b' ++ "_" ++ natToString
              (normCount (prev ++ [b] ++ pre) (normalizeHeader b') + 1) := by
          unfold mkHeader at hx
          rw [if_neg h0, if_neg h1] at hx
          exact hx
        obtain ⟨hbb, hkk⟩ := suffix_decomp hx'
        have h2 : normCount prev (normalizeHeader b) + 1 ≤
            normCount (prev ++ [b] ++ pre) (normalizeHeader b') := by
          rw [← hbb, normCount_mid]
          omega
        omega
    · apply ih (prev ++ [b])
      intro b1 hm1 b2 hm2 k hk2 hkle
      have he : (prev ++ [b]) ++ rest = prev ++ b :: rest := by simp
      apply H b1 (by rw [← he]; simpa using hm1) b2 (by rw [← he]; simpa using hm2)
        k hk2
      have : ((prev ++ [b]) ++ rest).length = (prev ++ b :: rest).length := by
        rw [he]
      omega

theorem suffixFreeB_spec (bs : List String) (h : suffixFreeB bs = true) :
    ∀ b1 ∈ bs, ∀ b2 ∈ bs, ∀ k, 2 ≤ k → k ≤ bs.length + 1 →
      b1 ≠ b2 ++ "_" ++ natToString k := by
  intro b1 h1 b2 h2 k hk2 hkle
  simp only [suffixFreeB, List.all_eq_true] at h
  have := h b1 h1 b2 h2 k (by rw [List.mem_range]; omega)
  rcases Bool.or_eq_true_iff.mp this with hlt | hne
  · simp only [decide_eq_true_eq] at hlt
    omega
  · simpa using hne

theorem dedupNames_eq_self :
    ∀ (bs prev : List String),
      (∀ b ∈ bs, normCount prev (normalizeHeader b) = 0) →
      (bs.map normalizeHeader).Nodup → dedupNames prev bs = bs := by
  intro bs
  induction bs with
  | nil => intro prev _ _; rfl
  | cons b rest ih =>
    intro prev hfresh hnd
    simp only [dedupNames]
    rw [hfresh b (List.mem_cons_self b rest)]
    simp only [mkHeader, if_pos rfl]
    congr 1
    rw [List.map_cons, List.nodup_cons] at hnd
    apply ih
    · intro b' hb'
      rw [normCount_append, hfresh b' (List.mem_cons_of_mem b hb'),
        normCount_singleton_ne]
      intro he
      exact hnd.1 (he ▸ List.mem_map_of_mem normalizeHeader hb')
    · exact hnd.2

theorem normLookup_self :
    ∀ (values : List (String × String)),
      ((values.map (fun kv => normalizeHeader kv.1)).Nodup) →
      ∀ kv ∈ values, normLookup values (normalizeHeader kv.1) = some kv.2 := by
  intro values
  induction values with
  | nil => intro _ kv hkv; simp at hkv
  | cons x rest ih =>
    intro hnd kv hkv
    rw [List.map_cons, List.nodup_cons] at hnd
    unfold normLookup
    rw [List.reverse_cons, List.find?_append]
    rcases List.mem_cons.mp hkv with rfl | hkv
    · have hnone : rest.reverse.find?
          (fun p => decide (normalizeHeader p.1 = normalizeHeader kv.1)) = none := by
        rw [List.find?_eq_none]
        intro p hp
        simp only [decide_eq_true_eq]
        intro he
        exact hnd.1 (he ▸ List.mem_map_of_mem _ (List.mem_reverse.mp hp))
      rw [hnone]
      simp
    · have hsome := ih hnd.2 kv hkv
      unfold normLookup at hsome
      cases hfind : rest.reverse.find?
          (fun p => decide (normalizeHeader p.1 = normalizeHeader kv.1)) with
      | none =>
        rw [hfind] at hsome
        exact Option.noConfusion hsome
      | some p =>
        rw [hfind] at hsome
        simpa using hsome

theorem length_filterMap_countP {α β : Type} (f : α → Option β) :
    ∀ l : List α, (l.filterMap f).length = l.countP (fun a => (f a).isSome) := by
  intro l
  induction l with
  | nil => rfl
  | cons a l ih =>
    rw [List.countP_cons]
    cases hf : f a with
    | none =>
      rw [List.filterMap_cons_none hf, ih, if_neg]
      · omega
      · simp [hf]
    | some b =>
      rw [List.filterMap_cons_some hf, List.length_cons, ih, if_pos (by simp [hf])]

theorem length_flatMap_const {α β : Type} (f : α → List β) (m : Nat) :
    ∀ rows : List α, (∀ r ∈ rows, (f r).length = m) →
      (rows.flatMap f).length = rows.length * m := by
  intro rows
  induction rows with
  | nil => intro _; simp
  | cons r rest ih =>
    intro h
    rw [List.flatMap_cons, List.length_append, h r (List.mem_cons_self r rest),
      ih (fun x hx => h x (List.mem_cons_of_mem r hx))]
    simp only [List.length_cons]
    ring

theorem scanLayout_calls_get (sheetName : String) (grid : Grid) :
    ∀ steps, ∀ c ∈ (scanLayout sheetName grid steps).2, c.isMutating = false := by
  intro steps
  induction steps with
  | nil => intro c hc; simp [scanLayout] at hc
  | cons n rest ih =>
    intro c hc
    simp only [scanLayout] at hc
    cases hfind : (grid.take n).findIdx?
        (fun row => row.any (fun cell => isNonEmptyCell cell)) with
    | none =>
      rw [hfind] at hc
      rcases List.mem_cons.mp hc with rfl | hc
      · rfl
      · exact ih c hc
    | some i =>
      rw [hfind] at hc
      rcases List.mem_cons.mp hc with rfl | hc
      · rfl
      · simp at hc

theorem mutCalls_getTableLayout (grid : Grid) (sheetName : String)
    (hr : Option Nat) : mutCalls (getTableLayout grid sheetName hr).2 = [] := by
  cases hr with
  | some h => rfl
  | none =>
    unfold mutCalls
    rw [List.filter_eq_nil_iff]
    intro c hc
    rw [scanLayout_calls_get sheetName grid _ c hc]
    simp

theorem mutCalls_append (a b : List RemoteCall) :
    mutCalls (a ++ b) = mutCalls a ++ mutCalls b :=
  List.filter_append a b

theorem mutCalls_get_singleton (r : String) :
    mutCalls [RemoteCall.valuesGet r] = [] := rfl

theorem mkRat_le_mkRat (a b c d : Nat) (hb : 0 < b) (hd : 0 < d) :
    (mkRat a b ≤ mkRat c d) ↔ a * d ≤ c * b := by
  rw [Rat.mkRat_eq_div, Rat.mkRat_eq_div,
    div_le_div_iff₀ (by exact_mod_cast hb) (by exact_mod_cast hd)]
  exact_mod_cast Iff.rfl

/-- Claim C1, counterexample: the header row `["A", "A", "A_2"]` is
non-empty, yet layout resolution yields resolved headers
`["A", "A_2", "A_2"]` — the second occurrence of `A` is suffixed to `A_2`,
which collides with the verbatim raw label `A_2`, so `resolvedHeaders`
contains a duplicate. -/
theorem claim1_counterexample :
    (getTableLayout [["A", "A", "A_2"]] "S" (some 1)).1.headers =
        ["A", "A_2", "A_2"] ∧
      ¬ ((getTableLayout [["A", "A", "A_2"]] "S" (some 1)).1.headers).Nodup := by
  constructor
  · decide
  · decide

/-- Claim C1 (amended): for every header row whose base names (raw labels,
or the column's letter for a blank label) are suffix-independent — no base
name textually equals another base name with a `_k` dedup suffix attached —
layout resolution produces `resolvedHeaders` with no duplicate entries: the
first occurrence of a normalized name keeps the bare name and the i-th
later occurrence is deduplicated by appending `_2`, `_3`, …  In particular
raw headers `["Name", "Status", "Name"]` resolve to
`["Name", "Status", "Name_2"]`. -/
theorem claim1_amended :
    (∀ (grid : Grid) (sheetName : String) (h : Nat), 1 ≤ h →
      suffixFreeB (basesOf 1 0 (rawHeadersOf (grid.getD (h - 1) [])
        (grid.getD (h - 1) []).length)) = true →
      ((getTableLayout grid sheetName (some h)).1.headers).Nodup)
    ∧ (getTableLayout [["Name", "Status", "Name"]] "S" (some 1)).1.headers =
        ["Name", "Status", "Name_2"] := by
  constructor
  · intro grid sheetName h _ hsf
    show ((buildHeaders (grid.getD (h - 1) []) 1
      (grid.getD (h - 1) []).length).1).Nodup
    rw [buildHeaders_fst_eq]
    apply dedupNames_nodup
    have hs := suffixFreeB_spec _ hsf
    intro b1 h1 b2 h2 k hk2 hkle
    exact hs b1 (by simpa using h1) b2 (by simpa using h2) k hk2
      (by simpa using hkle)
  · decide

/-- Witness for the amended claim C1 at the header row
`["Name", "Status", "Name"]`. -/
theorem claim1_witness :
    (1 ≤ 1 ∧
      suffixFreeB (basesOf 1 0 (rawHeadersOf
        (([["Name", "Status", "Name"]] : Grid).getD (1 - 1) [])
        (([["Name", "Status", "Name"]] : Grid).getD (1 - 1) []).length)) = true)
    ∧ ((getTableLayout [["Name", "Status", "Name"]] "S" (some 1)).1.headers).Nodup :=
  ⟨⟨by decide, by decide⟩,
    claim1_amended.1 [["Name", "Status", "Name"]] "S" 1 (by decide) (by decide)⟩

/-- Claim C6, counterexample: `"a"` is a valid 1-letter column reference
(`isColumnLetter` accepts lower case), but the roundtrip
`colToLetter (colLetterToNumber "a")` yields `"A" ≠ "a"`. -/
theorem claim6_counterexample :
    isColumnLetter "a" = true ∧
      (colLetterToNumber "a").map colToLetter = some "A" ∧
      ("A" : String) ≠ "a" := by
  refine ⟨by decide, by decide, by decide⟩

/-- Claim C6 (amended): the letter/number maps are mutually inverse up to
upper-casing: `colToLetter (colLetterToNumber L) = L` for every non-empty
sequence of UPPER-case letters `L` (lower-case input is canonicalized to
upper case, so the identity fails for it), and
`colLetterToNumber (colToLetter n) = n` for every column `n ≥ 1`, so the
mapping is a bijection over columns `1..N` for every `N`. -/
theorem claim6_amended :
    (∀ s : String, s.data ≠ [] →
      (∀ c ∈ s.data, 65 ≤ c.toNat ∧ c.toNat ≤ 90) →
      (colLetterToNumber s).map colToLetter = some s)
    ∧ (∀ n : Nat, 1 ≤ n → colLetterToNumber (colToLetter n) = some n) := by
  constructor
  · intro s hne hchars
    unfold colLetterToNumber
    have htrim : jsTrim s = s :=
      jsTrim_mk_eq s.data
        (fun c hc => jsIsWs_false_of_ge c (by have := hchars c hc; omega))
    rw [htrim, map_toUpper_fix _ hchars,
      foldl_colLetterStep_of_inRange _ hchars 0]
    exact congrArg some (colToLetter_letterVal s.data hne hchars)
  · intro n _
    exact colLetterToNumber_colToLetter n

/-- Witness for the amended claim C6 at `L = "AB"` and `n = 28`. -/
theorem claim6_witness :
    (("AB" : String).data ≠ [] ∧
      (∀ c ∈ ("AB" : String).data, 65 ≤ c.toNat ∧ c.toNat ≤ 90)) ∧
    (colLetterToNumber "AB").map colToLetter = some "AB" ∧
    colLetterToNumber (colToLetter 28) = some 28 :=
  ⟨⟨by decide, by decide⟩, claim6_amended.1 "AB" (by decide) (by decide),
    claim6_amended.2 28 (by decide)⟩

/-- Claim C5: for every candidate row with two or more non-empty cells, the
header heuristic classifies the row as a header iff
distinct-normalized/count ≥ 0.8 AND alphabetic fraction ≥ 0.5 AND
numeric-or-date fraction ≤ 0.5 (stated equivalently over the integer
counts: `4n ≤ 5·distinct`, `n ≤ 2·alpha`, `2·(numeric+date) ≤ n`); and the
row `["2025-01-01", "42"]` is classified as not a header. -/
theorem claim5_heuristic :
    (∀ rows : List (List String),
      2 ≤ (nonEmptyCellsOf (rows.headD [])).length →
      (inferHasHeader rows = true ↔
        (4 * (nonEmptyCellsOf (rows.headD [])).length ≤
            5 * ((nonEmptyCellsOf (rows.headD [])).map normalizeHeader).dedup.length ∧
          (nonEmptyCellsOf (rows.headD [])).length ≤
            2 * ((nonEmptyCellsOf (rows.headD [])).filter
              (fun v => hasAlphaStr v)).length ∧
          2 * (((nonEmptyCellsOf (rows.headD [])).filter
                (fun v => numberishTest v)).length +
              ((nonEmptyCellsOf (rows.headD [])).filter
                (fun v => dateLikeTest v)).length) ≤
            (nonEmptyCellsOf (rows.headD [])).length)))
    ∧ inferHasHeader [["2025-01-01", "42"]] = false := by
  constructor
  · intro rows hn
    unfold inferHasHeader
    rw [if_neg (by omega), if_neg (by omega)]
    rw [Bool.and_eq_true, Bool.and_eq_true, decide_eq_true_iff,
      decide_eq_true_iff, decide_eq_true_iff]
    have h1 := mkRat_le_mkRat 4 5
      ((nonEmptyCellsOf (rows.headD [])).map normalizeHeader).dedup.length
      (nonEmptyCellsOf (rows.headD [])).length (by omega) (by omega)
    have h2 := mkRat_le_mkRat 1 2
      ((nonEmptyCellsOf (rows.headD [])).filter (fun v => hasAlphaStr v)).length
      (nonEmptyCellsOf (rows.headD [])).length (by omega) (by omega)
    have h3 := mkRat_le_mkRat
      (((nonEmptyCellsOf (rows.headD [])).filter (fun v => numberishTest v)).length +
        ((nonEmptyCellsOf (rows.headD [])).filter (fun v => dateLikeTest v)).length)
      (nonEmptyCellsOf (rows.headD [])).length 1 2 (by omega) (by omega)
    norm_cast at h1 h2
    push_cast at h3
    rw [h1, h2, h3]
    constructor
    · rintro ⟨⟨a, b⟩, c⟩
      refine ⟨by omega, by omega, by omega⟩
    · rintro ⟨a, b, c⟩
      refine ⟨⟨by omega, by omega⟩, by omega⟩
  · decide

/-- Witness for claim C5 at the candidate row `["Name", "Status"]`. -/
theorem claim5_witness :
    2 ≤ (nonEmptyCellsOf (([["Name", "Status"]] : List (List String)).headD [])).length ∧
    (inferHasHeader [["Name", "Status"]] = true ↔
      (4 * (nonEmptyCellsOf (([["Name", "Status"]] : List (List String)).headD [])).length ≤
          5 * ((nonEmptyCellsOf (([["Name", "Status"]] : List (List String)).headD [])).map
            normalizeHeader).dedup.length ∧
        (nonEmptyCellsOf (([["Name", "Status"]] : List (List String)).headD [])).length ≤
          2 * ((nonEmptyCellsOf (([["Name", "Status"]] : List (List String)).headD [])).filter
            (fun v => hasAlphaStr v)).length ∧
        2 * (((nonEmptyCellsOf (([["Name", "Status"]] : List (List String)).headD [])).filter
              (fun v => numberishTest v)).length +
            ((nonEmptyCellsOf (([["Name", "Status"]] : List (List String)).headD [])).filter
              (fun v => dateLikeTest v)).length) ≤
          (nonEmptyCellsOf (([["Name", "Status"]] : List (List String)).headD [])).length)) :=
  ⟨by decide, claim5_heuristic.1 [["Name", "Status"]] (by decide)⟩

theorem mutCalls_gets_get (grid : Grid) (sheetName : String) (hr : Option Nat)
    (r : String) :
    mutCalls ((getTableLayout grid sheetName hr).2 ++
      [RemoteCall.valuesGet r]) = [] := by
  rw [mutCalls_append, mutCalls_getTableLayout]
  rfl

/-- Claim C2: with `dryRun = true`, none of the four write operations
issues a remote mutating call (`values.append`, `values.batchUpdate` or
`values.update`) — only reads are performed — so the remote grid state
observed by a subsequent read is unchanged. -/
theorem claim2_dry_run_no_writes :
    ∀ (env : RemoteEnv) (grid : Grid) (sheetName : String)
      (values setVals : List (String × String)) (rowIndex : Rat)
      (keyCol keyValue rangeStr : String) (block : List (List String))
      (vio : Option String) (hr : Option Nat) (am : Bool),
      mutCalls (appendRows env grid sheetName values ⟨vio, true, hr, am⟩).2 = [] ∧
      mutCalls (updateByRowIndex env grid sheetName rowIndex setVals
        ⟨vio, true, hr, am⟩).2 = [] ∧
      mutCalls (updateByKey env grid sheetName keyCol keyValue setVals
        ⟨vio, true, hr, am⟩).2 = [] ∧
      mutCalls (setRange env rangeStr block ⟨vio, true, hr, am⟩).2 = [] := by
  intro env grid sheetName values setVals rowIndex keyCol keyValue rangeStr
    block vio hr am
  refine ⟨?_, ?_, ?_, ?_⟩
  · simp only [appendRows]
    split
    · exact mutCalls_getTableLayout grid sheetName hr
    · exact mutCalls_getTableLayout grid sheetName hr
  · simp only [updateByRowIndex]
    split
    · rfl
    · exact mutCalls_getTableLayout grid sheetName hr
  · simp only [updateByKey]
    split
    · exact mutCalls_getTableLayout grid sheetName hr
    · split
      · exact mutCalls_gets_get grid sheetName hr _
      · split
        · exact mutCalls_gets_get grid sheetName hr _
        · exact mutCalls_gets_get grid sheetName hr _
  · rfl

/-- Claim C3: when the key-column scan of `updateByKey` finds more than one
matching row and `allowMulti` is not set, the operation fails with a
multiplicity error carrying the match count (rendered by
`SheetErr.message` as `Multiple rows (n) match key "…"`), and no remote
mutating call is issued. -/
theorem claim3_multiplicity :
    ∀ (env : RemoteEnv) (grid : Grid) (sheetName keyCol keyValue : String)
      (setVals : List (String × String)) (vio : Option String) (d : Bool)
      (hr : Option Nat) (kc : Nat),
      resolveSetCol (getTableLayout grid sheetName hr).1 keyCol = some kc →
      1 < (matchingRowsOf grid (getTableLayout grid sheetName hr).1.dataStartRow
        kc keyValue).length →
      (updateByKey env grid sheetName keyCol keyValue setVals
          ⟨vio, d, hr, false⟩).1 =
        .error (.multipleMatches
          (matchingRowsOf grid (getTableLayout grid sheetName hr).1.dataStartRow
            kc keyValue).length keyValue) ∧
      mutCalls (updateByKey env grid sheetName keyCol keyValue setVals
        ⟨vio, d, hr, false⟩).2 = [] := by
  intro env grid sheetName keyCol keyValue setVals vio d hr kc hres hcount
  have hne : (matchingRowsOf grid
      (getTableLayout grid sheetName hr).1.dataStartRow kc keyValue).isEmpty =
      false := by
    rw [List.isEmpty_eq_false_iff_exists_mem]
    have : 0 < (matchingRowsOf grid
        (getTableLayout grid sheetName hr).1.dataStartRow kc keyValue).length := by
      omega
    exact List.exists_mem_of_length_pos this
  simp only [updateByKey, hres]
  rw [hne]
  simp only [Bool.false_eq_true, if_false, hcount, decide_True, Bool.not_false,
    Bool.and_self, if_true]
  exact ⟨by trivial, mutCalls_gets_get grid sheetName hr _⟩

/-- Witness for claim C3: key `T-1` matches rows 2 and 3 of a three-row
table, `allowMulti` unset. -/
theorem claim3_witness :
    (resolveSetCol (getTableLayout [["ID", "Status"], ["T-1", "a"], ["T-1", "b"]]
        "S" none).1 "ID" = some 1 ∧
      1 < (matchingRowsOf [["ID", "Status"], ["T-1", "a"], ["T-1", "b"]]
        (getTableLayout [["ID", "Status"], ["T-1", "a"], ["T-1", "b"]] "S"
          none).1.dataStartRow 1 "T-1").length) ∧
    (updateByKey defaultEnv [["ID", "Status"], ["T-1", "a"], ["T-1", "b"]] "S"
        "ID" "T-1" [("Status", "Done")] ⟨none, false, none, false⟩).1 =
      .error (.multipleMatches
        (matchingRowsOf [["ID", "Status"], ["T-1", "a"], ["T-1", "b"]]
          (getTableLayout [["ID", "Status"], ["T-1", "a"], ["T-1", "b"]] "S"
            none).1.dataStartRow 1 "T-1").length "T-1") ∧
    mutCalls (updateByKey defaultEnv [["ID", "Status"], ["T-1", "a"], ["T-1", "b"]]
      "S" "ID" "T-1" [("Status", "Done")] ⟨none, false, none, false⟩).2 = [] := by
  refine ⟨⟨by decide, by decide⟩, ?_⟩
  exact claim3_multiplicity defaultEnv [["ID", "Status"], ["T-1", "a"], ["T-1", "b"]]
    "S" "ID" "T-1" [("Status", "Done")] none false none 1 (by decide) (by decide)

/-- Claim C8: when the key-column scan of `updateByKey` finds zero matching
rows, the operation succeeds with `matchedRows = 0`, `updatedCells = 0`,
empty `updatedRanges`, and no remote mutating call is issued. -/
theorem claim8_zero_matches :
    ∀ (env : RemoteEnv) (grid : Grid) (sheetName keyCol keyValue : String)
      (setVals : List (String × String)) (vio : Option String) (d am : Bool)
      (hr : Option Nat) (kc : Nat),
      resolveSetCol (getTableLayout grid sheetName hr).1 keyCol = some kc →
      matchingRowsOf grid (getTableLayout grid sheetName hr).1.dataStartRow
        kc keyValue = [] →
      (updateByKey env grid sheetName keyCol keyValue setVals
          ⟨vio, d, hr, am⟩).1 = .ok ⟨0, 0, [], d⟩ ∧
      mutCalls (updateByKey env grid sheetName keyCol keyValue setVals
        ⟨vio, d, hr, am⟩).2 = [] := by
  intro env grid sheetName keyCol keyValue setVals vio d am hr kc hres hzero
  simp only [updateByKey, hres, hzero]
  exact ⟨rfl, mutCalls_gets_get grid sheetName hr _⟩

/-- Witness for claim C8: key `T-9` matches nothing. -/
theorem claim8_witness :
    (resolveSetCol (getTableLayout [["ID", "Status"], ["T-1", "a"]] "S" none).1
        "ID" = some 1 ∧
      matchingRowsOf [["ID", "Status"], ["T-1", "a"]]
        (getTableLayout [["ID", "Status"], ["T-1", "a"]] "S"
          none).1.dataStartRow 1 "T-9" = []) ∧
    (updateByKey defaultEnv [["ID", "Status"], ["T-1", "a"]] "S" "ID" "T-9"
        [("Status", "Done")] ⟨none, false, none, false⟩).1 = .ok ⟨0, 0, [], false⟩ ∧
    mutCalls (updateByKey defaultEnv [["ID", "Status"], ["T-1", "a"]] "S" "ID"
      "T-9" [("Status", "Done")] ⟨none, false, none, false⟩).2 = [] := by
  refine ⟨⟨by decide, by decide⟩, ?_⟩
  exact claim8_zero_matches defaultEnv [["ID", "Status"], ["T-1", "a"]] "S" "ID"
    "T-9" [("Status", "Done")] none false false none 1 (by decide) (by decide)

/-- Claim C9, counterexample: `rowNumber = 5/2` is not a positive integer,
yet `updateByRowIndex` does not fail — the guard only rejects values below
one (and non-finite values) — and a remote write to range `…!A2.5` is
issued. -/
theorem claim9_counterexample :
    (mkRat 5 2).den ≠ 1 ∧ (1 : Rat) ≤ mkRat 5 2 ∧
    (updateByRowIndex defaultEnv [["1", "2"]] "S" (mkRat 5 2) [("A", "x")]
        ⟨none, false, none, false⟩).1 =
      .ok ⟨1, escapeSheetName "S" ++ "!A" ++ ratToString (mkRat 5 2), false⟩ ∧
    mutCalls (updateByRowIndex defaultEnv [["1", "2"]] "S" (mkRat 5 2)
      [("A", "x")] ⟨none, false, none, false⟩).2 ≠ [] := by
  refine ⟨by decide, by decide, by rfl, by decide⟩

/-- Claim C9 (amended): `updateByRowIndex` rejects exactly the row numbers
below one (and the non-finite values, which the rational model cannot
represent): for every `rowNumber < 1` the operation fails with the
validation error before any remote call — the call trace is empty, so the
grid is neither read nor written.  Non-integer row numbers `≥ 1` are not
rejected (see the counterexample). -/
theorem claim9_amended :
    ∀ (env : RemoteEnv) (grid : Grid) (sheetName : String) (rowIndex : Rat)
      (setVals : List (String × String)) (vio : Option String) (d : Bool)
      (hr : Option Nat) (am : Bool),
      rowIndex < 1 →
      updateByRowIndex env grid sheetName rowIndex setVals ⟨vio, d, hr, am⟩ =
        (.error .rowIndexInvalid, []) := by
  intro env grid sheetName rowIndex setVals vio d hr am h
  simp only [updateByRowIndex, if_pos h]

/-- Witness for the amended claim C9 at `rowNumber = 0`. -/
theorem claim9_witness :
    ((0 : Rat) < 1) ∧
    updateByRowIndex defaultEnv [["1", "2"]] "S" 0 [("A", "x")]
        ⟨none, false, none, false⟩ = (.error .rowIndexInvalid, []) :=
  ⟨by decide, claim9_amended defaultEnv [["1", "2"]] "S" 0 [("A", "x")] none
    false none false (by decide)⟩

theorem length_rowUpdatesOf (quoted : String) (layout : TableLayout)
    (rowStr : String) (setVals : List (String × String)) :
    (rowUpdatesOf quoted layout rowStr setVals).length =
      (setVals.filter (fun kv => (resolveSetCol layout kv.1).isSome)).length := by
  unfold rowUpdatesOf
  rw [length_filterMap_countP, ← List.countP_eq_length_filter]
  apply List.countP_congr
  intro kv _
  cases h : resolveSetCol layout kv.1 with
  | none => simp [h]
  | some c => simp [h]

theorem rowUpdatesOf_eq_nil_of_none (quoted : String) (layout : TableLayout)
    (rowStr : String) (setVals : List (String × String))
    (h : ∀ kv ∈ setVals, resolveSetCol layout kv.1 = none) :
    rowUpdatesOf quoted layout rowStr setVals = [] := by
  unfold rowUpdatesOf
  rw [List.filterMap_eq_nil_iff]
  intro kv hkv
  rw [h kv hkv]

theorem length_keyUpdatesOf (quoted : String) (layout : TableLayout)
    (rows : List Nat) (setVals : List (String × String)) :
    (keyUpdatesOf quoted layout rows setVals).length =
      rows.length *
        (setVals.filter (fun kv => (resolveSetCol layout kv.1).isSome)).length :=
  length_flatMap_const _ _ rows
    (fun r _ => length_rowUpdatesOf quoted layout (natToString r) setVals)

/-- Claim C7: in `updateByRowIndex` and `updateByKey`, a `setValues` key
that resolves to no column is silently skipped, never an error:
`updatedCells` is exactly (matched rows ×) the number of resolving keys;
and in `updateByRowIndex`, if zero keys resolve, no remote mutating call is
made and the result reports zero updated cells. -/
theorem claim7_skip_unresolved :
    (∀ (env : RemoteEnv) (grid : Grid) (sheetName : String) (rowIndex : Rat)
      (setVals : List (String × String)) (vio : Option String) (d : Bool)
      (hr : Option Nat) (am : Bool), 1 ≤ rowIndex →
      ∃ rng, (updateByRowIndex env grid sheetName rowIndex setVals
          ⟨vio, d, hr, am⟩).1 =
        .ok ⟨(setVals.filter (fun kv =>
            (resolveSetCol (getTableLayout grid sheetName hr).1 kv.1).isSome)).length,
          rng, d⟩)
    ∧ (∀ (env : RemoteEnv) (grid : Grid) (sheetName : String) (rowIndex : Rat)
      (setVals : List (String × String)) (vio : Option String)
      (hr : Option Nat) (am : Bool), 1 ≤ rowIndex →
      (∀ kv ∈ setVals,
        resolveSetCol (getTableLayout grid sheetName hr).1 kv.1 = none) →
      updateByRowIndex env grid sheetName rowIndex setVals ⟨vio, false, hr, am⟩ =
        (.ok ⟨0, "", false⟩, (getTableLayout grid sheetName hr).2) ∧
      mutCalls (updateByRowIndex env grid sheetName rowIndex setVals
        ⟨vio, false, hr, am⟩).2 = [])
    ∧ (∀ (env : RemoteEnv) (grid : Grid) (sheetName keyCol keyValue : String)
      (setVals : List (String × String)) (vio : Option String) (d : Bool)
      (hr : Option Nat) (am : Bool) (kc : Nat),
      resolveSetCol (getTableLayout grid sheetName hr).1 keyCol = some kc →
      (am = true ∨ (matchingRowsOf grid
        (getTableLayout grid sheetName hr).1.dataStartRow kc keyValue).length ≤ 1) →
      ∃ ranges dr, (updateByKey env grid sheetName keyCol keyValue setVals
          ⟨vio, d, hr, am⟩).1 =
        .ok ⟨(matchingRowsOf grid
            (getTableLayout grid sheetName hr).1.dataStartRow kc keyValue).length,
          (matchingRowsOf grid
            (getTableLayout grid sheetName hr).1.dataStartRow kc keyValue).length *
            (setVals.filter (fun kv =>
              (resolveSetCol (getTableLayout grid sheetName hr).1 kv.1).isSome)).length,
          ranges, dr⟩) := by
  refine ⟨?_, ?_, ?_⟩
  · intro env grid sheetName rowIndex setVals vio d hr am h
    simp only [updateByRowIndex, if_neg (not_lt.mpr h)]
    cases d with
    | true =>
      refine ⟨joinRanges (rowUpdatesOf (escapeSheetName sheetName)
        (getTableLayout grid sheetName hr).1 (ratToString rowIndex) setVals), ?_⟩
      rw [← length_rowUpdatesOf (escapeSheetName sheetName)
        (getTableLayout grid sheetName hr).1 (ratToString rowIndex) setVals]
      rfl
    | false =>
      cases hup : (rowUpdatesOf (escapeSheetName sheetName)
          (getTableLayout grid sheetName hr).1 (ratToString rowIndex)
          setVals).isEmpty with
      | true =>
        refine ⟨"", ?_⟩
        have h0 : (setVals.filter (fun kv =>
            (resolveSetCol (getTableLayout grid sheetName hr).1 kv.1).isSome)).length
            = 0 := by
          rw [← length_rowUpdatesOf (escapeSheetName sheetName)
            (getTableLayout grid sheetName hr).1 (ratToString rowIndex) setVals,
            List.isEmpty_iff.mp hup]
          rfl
        rw [h0]
        rfl
      | false =>
        refine ⟨joinRanges (rowUpdatesOf (escapeSheetName sheetName)
          (getTableLayout grid sheetName hr).1 (ratToString rowIndex) setVals), ?_⟩
        rw [← length_rowUpdatesOf (escapeSheetName sheetName)
          (getTableLayout grid sheetName hr).1 (ratToString rowIndex) setVals]
        rfl
  · intro env grid sheetName rowIndex setVals vio hr am h hnone
    have hnil := rowUpdatesOf_eq_nil_of_none (escapeSheetName sheetName)
      (getTableLayout grid sheetName hr).1 (ratToString rowIndex) setVals hnone
    simp only [updateByRowIndex, if_neg (not_lt.mpr h), hnil, List.isEmpty_nil,
      if_true, Bool.false_eq_true, if_false]
    exact ⟨by trivial, mutCalls_getTableLayout grid sheetName hr⟩
  · intro env grid sheetName keyCol keyValue setVals vio d hr am kc hres hdisj
    simp only [updateByKey, hres]
    cases hmr : (matchingRowsOf grid
        (getTableLayout grid sheetName hr).1.dataStartRow kc keyValue).isEmpty with
    | true =>
      have hm0 : matchingRowsOf grid
          (getTableLayout grid sheetName hr).1.dataStartRow kc keyValue = [] :=
        List.isEmpty_iff.mp hmr
      refine ⟨[], d, ?_⟩
      rw [hm0]
      simp only [List.length_nil, Nat.zero_mul]
      rfl
    | false =>
      have hcond : (decide (1 < (matchingRowsOf grid
          (getTableLayout grid sheetName hr).1.dataStartRow kc keyValue).length)
          && !am) = false := by
        rcases hdisj with ham | hlen
        · rw [ham]
          simp
        · rw [decide_eq_false_iff_not.mpr (by omega)]
          simp
      cases d with
      | true =>
        refine ⟨(keyUpdatesOf (escapeSheetName sheetName)
          (getTableLayout grid sheetName hr).1
          (matchingRowsOf grid (getTableLayout grid sheetName hr).1.dataStartRow
            kc keyValue) setVals).map (fun u => u.1), true, ?_⟩
        rw [← length_keyUpdatesOf (escapeSheetName sheetName)
          (getTableLayout grid sheetName hr).1
          (matchingRowsOf grid (getTableLayout grid sheetName hr).1.dataStartRow
            kc keyValue) setVals]
        rw [hcond]
        rfl
      | false =>
        cases hup : (keyUpdatesOf (escapeSheetName sheetName)
            (getTableLayout grid sheetName hr).1
            (matchingRowsOf grid (getTableLayout grid sheetName hr).1.dataStartRow
              kc keyValue) setVals).isEmpty with
        | true =>
          refine ⟨[], false, ?_⟩
          have h0 : (matchingRowsOf grid
              (getTableLayout grid sheetName hr).1.dataStartRow kc keyValue).length *
              (setVals.filter (fun kv =>
                (resolveSetCol (getTableLayout grid sheetName hr).1 kv.1).isSome)).length
              = 0 := by
            rw [← length_keyUpdatesOf (escapeSheetName sheetName)
              (getTableLayout grid sheetName hr).1
              (matchingRowsOf grid (getTableLayout grid sheetName hr).1.dataStartRow
                kc keyValue) setVals, List.isEmpty_iff.mp hup]
            rfl
          rw [h0]
          rw [hcond]
          rfl
        | false =>
          refine ⟨(keyUpdatesOf (escapeSheetName sheetName)
            (getTableLayout grid sheetName hr).1
            (matchingRowsOf grid (getTableLayout grid sheetName hr).1.dataStartRow
              kc keyValue) setVals).map (fun u => u.1), false, ?_⟩
          rw [← length_keyUpdatesOf (escapeSheetName sheetName)
            (getTableLayout grid sheetName hr).1
            (matchingRowsOf grid (getTableLayout grid sheetName hr).1.dataStartRow
              kc keyValue) setVals]
          rw [hcond]
          rfl

/-- Witness for claim C7 on the table `[["Name","Status"],["a","b"]]`:
key `Status` resolves, key `Typo` is skipped. -/
theorem claim7_witness :
    ((1 : Rat) ≤ 2 ∧
      ∃ rng, (updateByRowIndex defaultEnv [["Name", "Status"], ["a", "b"]] "S" 2
          [("Status", "Done"), ("Typo", "x")] ⟨none, false, none, false⟩).1 =
        .ok ⟨([("Status", "Done"), ("Typo", "x")].filter (fun kv =>
            (resolveSetCol (getTableLayout [["Name", "Status"], ["a", "b"]] "S"
              none).1 kv.1).isSome)).length, rng, false⟩)
    ∧ ((∀ kv ∈ [("Typo", "x")],
        resolveSetCol (getTableLayout [["Name", "Status"], ["a", "b"]] "S"
          none).1 kv.1 = none) ∧
      updateByRowIndex defaultEnv [["Name", "Status"], ["a", "b"]] "S" 2
          [("Typo", "x")] ⟨none, false, none, false⟩ =
        (.ok ⟨0, "", false⟩,
          (getTableLayout [["Name", "Status"], ["a", "b"]] "S" none).2) ∧
      mutCalls (updateByRowIndex defaultEnv [["Name", "Status"], ["a", "b"]] "S"
        2 [("Typo", "x")] ⟨none, false, none, false⟩).2 = [])
    ∧ (resolveSetCol (getTableLayout [["Name", "Status"], ["a", "b"]] "S"
        none).1 "Name" = some 1 ∧
      ∃ ranges dr, (updateByKey defaultEnv [["Name", "Status"], ["a", "b"]] "S"
          "Name" "a" [("Status", "Done"), ("Typo", "x")]
          ⟨none, false, none, false⟩).1 =
        .ok ⟨(matchingRowsOf [["Name", "Status"], ["a", "b"]]
            (getTableLayout [["Name", "Status"], ["a", "b"]] "S"
              none).1.dataStartRow 1 "a").length,
          (matchingRowsOf [["Name", "Status"], ["a", "b"]]
            (getTableLayout [["Name", "Status"], ["a", "b"]] "S"
              none).1.dataStartRow 1 "a").length *
            ([("Status", "Done"), ("Typo", "x")].filter (fun kv =>
              (resolveSetCol (getTableLayout [["Name", "Status"], ["a", "b"]] "S"
                none).1 kv.1).isSome)).length,
          ranges, dr⟩) :=
  ⟨⟨by decide,
      claim7_skip_unresolved.1 defaultEnv [["Name", "Status"], ["a", "b"]] "S" 2
        [("Status", "Done"), ("Typo", "x")] none false none false (by decide)⟩,
    ⟨by decide,
      claim7_skip_unresolved.2.1 defaultEnv [["Name", "Status"], ["a", "b"]] "S"
        2 [("Typo", "x")] none none false (by decide) (by decide)⟩,
    ⟨by decide,
      claim7_skip_unresolved.2.2 defaultEnv [["Name", "Status"], ["a", "b"]] "S"
        "Name" "a" [("Status", "Done"), ("Typo", "x")] none false none false 1
        (by decide) (Or.inr (by decide))⟩⟩

theorem range_map_getD (g : String → String) :
    ∀ l : List String,
      (List.range l.length).map (fun i => g (l.getD i "")) = l.map g := by
  intro l
  induction l with
  | nil => rfl
  | cons x xs ih =>
    rw [List.length_cons, List.range_succ_eq_map, List.map_cons, List.map_map]
    rw [List.map_cons]
    congr 1

theorem rawHeadersOf_of_trimmed (keys : List String)
    (h : ∀ k ∈ keys, jsTrim k = k) :
    rawHeadersOf keys keys.length = keys := by
  unfold rawHeadersOf
  rw [range_map_getD jsTrim keys]
  rw [show keys.map jsTrim = keys.map id from List.map_congr_left h,
    List.map_id]

theorem basesOf_of_nonempty :
    ∀ (keys : List String) (sc i : Nat), (∀ k ∈ keys, k ≠ "") →
      basesOf sc i keys = keys := by
  intro keys
  induction keys with
  | nil => intro sc i _; rfl
  | cons k rest ih =>
    intro sc i h
    simp only [basesOf, if_neg (h k (List.mem_cons_self k rest))]
    rw [ih sc (i + 1) (fun x hx => h x (List.mem_cons_of_mem k hx))]

theorem buildHeaders_of_clean (keys : List String)
    (hclean : ∀ k ∈ keys, jsTrim k = k ∧ k ≠ "")
    (hnd : (keys.map normalizeHeader).Nodup) :
    (buildHeaders keys 1 keys.length).1 = keys := by
  rw [buildHeaders_fst_eq,
    rawHeadersOf_of_trimmed keys (fun k hk => (hclean k hk).1),
    basesOf_of_nonempty keys 1 0 (fun k hk => (hclean k hk).2)]
  exact dedupNames_eq_self keys [] (fun b _ => rfl) hnd

/-- Claim C4, counterexample: against the empty grid, the bootstrap append
with keys `[" Name", "name", ""]` writes header row
`["Name", "name_2", "C"]` (keys are trimmed, normalization-collisions are
suffixed, a blank key becomes its column letter) — not the input keys —
and data row `["y", "y", "z"]`, which maps the key `" Name"` to the later
colliding key's value `"y"`, not to its own value `"x"`. -/
theorem claim4_counterexample :
    (getTableLayout [] "S" none).1.width = 0 ∧
    mutCalls (appendRows defaultEnv [] "S"
        [(" Name", "x"), ("name", "y"), ("", "z")]
        ⟨none, false, none, false⟩).2 =
      [RemoteCall.valuesAppend (escapeSheetName "S" ++ "!A1") "USER_ENTERED"
        [["Name", "name_2", "C"], ["y", "y", "z"]]] ∧
    (["Name", "name_2", "C"] : List String) ≠ [" Name", "name", ""] ∧
    (["y", "y", "z"] : List String) ≠ ["x", "y", "z"] := by
  refine ⟨by decide, by decide, by decide, by decide⟩

/-- Claim C4 (amended): for every `appendRows` invocation against an empty
table (resolved width 0) whose non-empty `valuesByColumn` has trimmed,
non-blank keys that are pairwise distinct after normalization, the table is
bootstrapped by exactly one remote append writing two rows: the header row
is the input keys in insertion order and the data row maps each key to its
own value (e.g. `{"Name": "Acme", "Status": "Active"}` writes
`["Name", "Status"]` then `["Acme", "Active"]`). -/
theorem claim4_amended :
    ∀ (env : RemoteEnv) (grid : Grid) (sheetName : String)
      (values : List (String × String)) (vio : Option String)
      (hr : Option Nat) (am : Bool),
      (getTableLayout grid sheetName hr).1.width = 0 →
      values ≠ [] →
      (∀ kv ∈ values, jsTrim kv.1 = kv.1 ∧ kv.1 ≠ "") →
      (values.map (fun kv => normalizeHeader kv.1)).Nodup →
      appendRows env grid sheetName values ⟨vio, false, hr, am⟩ =
        (.ok ⟨(env.appendReply (escapeSheetName sheetName ++ "!A1")
            [values.map (fun p => p.1), values.map (fun p => p.2)]).1,
          (env.appendReply (escapeSheetName sheetName ++ "!A1")
            [values.map (fun p => p.1), values.map (fun p => p.2)]).2, false⟩,
          (getTableLayout grid sheetName hr).2 ++
            [RemoteCall.valuesAppend (escapeSheetName sheetName ++ "!A1")
              (vioOf ⟨vio, false, hr, am⟩)
              [values.map (fun p => p.1), values.map (fun p => p.2)]]) := by
  intro env grid sheetName values vio hr am hw hne hclean hnd
  have hcond : ((getTableLayout grid sheetName hr).1.width == 0 &&
      !values.isEmpty) = true := by
    rw [hw]
    cases values with
    | nil => exact absurd rfl hne
    | cons a l => rfl
  have hkeys : ∀ k ∈ values.map (fun p => p.1), jsTrim k = k ∧ k ≠ "" := by
    intro k hk
    obtain ⟨kv, hkv, rfl⟩ := List.mem_map.mp hk
    exact hclean kv hkv
  have hnd' : ((values.map (fun p => p.1)).map normalizeHeader).Nodup := by
    rw [List.map_map]
    exact hnd
  have hh : (buildHeaders (values.map (fun p => p.1)) 1
      (values.map (fun p => p.1)).length).1 = values.map (fun p => p.1) :=
    buildHeaders_of_clean _ hkeys hnd'
  have hrow : (values.map (fun p => p.1)).map
      (fun h => (normLookup values (normalizeHeader h)).getD "") =
      values.map (fun p => p.2) := by
    rw [List.map_map]
    apply List.map_congr_left
    intro kv hkv
    show (normLookup values (normalizeHeader kv.1)).getD "" = kv.2
    rw [normLookup_self values hnd kv hkv]
    rfl
  simp only [appendRows, hcond, if_true, hh, hrow]
  rfl

/-- Witness for the amended claim C4: bootstrap append of
`{"Name": "Acme", "Status": "Active"}` against the empty grid. -/
theorem claim4_witness :
    ((getTableLayout [] "S" none).1.width = 0 ∧
      ([("Name", "Acme"), ("Status", "Active")] :
        List (String × String)) ≠ [] ∧
      (∀ kv ∈ ([("Name", "Acme"), ("Status", "Active")] :
        List (String × String)), jsTrim kv.1 = kv.1 ∧ kv.1 ≠ "") ∧
      (([("Name", "Acme"), ("Status", "Active")] :
        List (String × String)).map (fun kv => normalizeHeader kv.1)).Nodup) ∧
    appendRows defaultEnv [] "S" [("Name", "Acme"), ("Status", "Active")]
        ⟨none, false, none, false⟩ =
      (.ok ⟨(defaultEnv.appendReply (escapeSheetName "S" ++ "!A1")
          [([("Name", "Acme"), ("Status", "Active")] :
            List (String × String)).map (fun p => p.1),
            ([("Name", "Acme"), ("Status", "Active")] :
            List (String × String)).map (fun p => p.2)]).1,
        (defaultEnv.appendReply (escapeSheetName "S" ++ "!A1")
          [([("Name", "Acme"), ("Status", "Active")] :
            List (String × String)).map (fun p => p.1),
            ([("Name", "Acme"), ("Status", "Active")] :
            List (String × String)).map (fun p => p.2)]).2, false⟩,
        (getTableLayout [] "S" none).2 ++
          [RemoteCall.valuesAppend (escapeSheetName "S" ++ "!A1")
            (vioOf ⟨none, false, none, false⟩)
            [([("Name", "Acme"), ("Status", "Active")] :
              List (String × String)).map (fun p => p.1),
              ([("Name", "Acme"), ("Status", "Active")] :
              List (String × String)).map (fun p => p.2)]]) :=
  ⟨⟨by decide, by decide, by decide, by decide⟩,
    claim4_amended defaultEnv [] "S" [("Name", "Acme"), ("Status", "Active")]
      none none false (by decide) (by decide) (by decide) (by decide)⟩

theorem colNumLookup_none (layout : TableLayout)
    (values : List (String × String))
    (h : letterColsOf layout values = []) (c : Nat) :
    colNumLookup layout values c = none := by
  have hall := List.filterMap_eq_nil_iff.mp h
  unfold colNumLookup
  have hfind : values.reverse.find? (fun p =>
      letterQualifies layout p.1 && decide (colLetterToNumber p.1 = some c)) =
      none := by
    rw [List.find?_eq_none]
    intro p hp
    have hmem := List.mem_reverse.mp hp
    cases hq : letterQualifies layout p.1 with
    | false => simp [hq]
    | true =>
      have hnone := hall p hmem
      rw [if_pos hq] at hnone
      simp [hq, hnone]
  rw [hfind]
  rfl

theorem buildAppendRow_all_empty (layout : TableLayout)
    (values : List (String × String))
    (hletter : letterColsOf layout values = [])
    (hraw : ∀ i < layout.width, normLookup values
      (normalizeHeader (layout.rawHeaders.getD i "")) = none)
    (hdisp : ∀ i < layout.width, normLookup values
      (normalizeHeader (layout.headers.getD i "")) = none) :
    buildAppendRow layout values layout.width =
      List.replicate layout.width "" := by
  unfold buildAppendRow
  rw [List.eq_replicate_iff]
  constructor
  · simp
  · intro b hb
    obtain ⟨i, hi, rfl⟩ := List.mem_map.mp hb
    have hilt : i < layout.width := List.mem_range.mp hi
    show (match colNumLookup layout values (layout.startCol + i) with
      | some v => v
      | none =>
        if (!layout.hasHeader) = true then ""
        else
          match normLookup values
            (normalizeHeader (layout.rawHeaders.getD i "")) with
          | some v => v
          | none =>
            (normLookup values
              (normalizeHeader (layout.headers.getD i ""))).getD "") = ""
    rw [colNumLookup_none layout values hletter]
    cases hh : layout.hasHeader with
    | false => simp [hh]
    | true =>
      simp only [hh, Bool.not_true, Bool.false_eq_true, if_false,
        hraw i hilt, hdisp i hilt]
      rfl

/-- Claim C10: against a non-empty table, an `appendRows` invocation in
which no key of `valuesByColumn` resolves to any column (no qualifying
bare letter, no raw- or display-header match) still builds a full-width
row of empty strings and, with `dryRun` unset, still issues exactly one
remote append writing that all-empty row — unlike `updateByRowIndex`,
which makes no remote call beyond the layout reads when zero keys
resolve. -/
theorem claim10_empty_row_append :
    (∀ (env : RemoteEnv) (grid : Grid) (sheetName : String)
      (values : List (String × String)) (vio : Option String)
      (hr : Option Nat) (am : Bool),
      0 < (getTableLayout grid sheetName hr).1.width →
      letterColsOf (getTableLayout grid sheetName hr).1 values = [] →
      (∀ i < (getTableLayout grid sheetName hr).1.width,
        normLookup values (normalizeHeader
          ((getTableLayout grid sheetName hr).1.rawHeaders.getD i "")) = none ∧
        normLookup values (normalizeHeader
          ((getTableLayout grid sheetName hr).1.headers.getD i "")) = none) →
      mutCalls (appendRows env grid sheetName values ⟨vio, false, hr, am⟩).2 =
        [RemoteCall.valuesAppend (escapeSheetName sheetName ++ "!" ++
            colToLetter (getTableLayout grid sheetName hr).1.startCol ++
            natToString (if (getTableLayout grid sheetName hr).1.hasHeader then
              (getTableLayout grid sheetName hr).1.headerRow
            else (getTableLayout grid sheetName hr).1.dataStartRow))
          (vioOf ⟨vio, false, hr, am⟩)
          [List.replicate (getTableLayout grid sheetName hr).1.width ""]])
    ∧ (∀ (env : RemoteEnv) (grid : Grid) (sheetName : String) (rowIndex : Rat)
      (setVals : List (String × String)) (vio : Option String)
      (hr : Option Nat) (am : Bool), 1 ≤ rowIndex →
      (∀ kv ∈ setVals,
        resolveSetCol (getTableLayout grid sheetName hr).1 kv.1 = none) →
      mutCalls (updateByRowIndex env grid sheetName rowIndex setVals
        ⟨vio, false, hr, am⟩).2 = [] ∧
      (updateByRowIndex env grid sheetName rowIndex setVals
        ⟨vio, false, hr, am⟩).1 = .ok ⟨0, "", false⟩) := by
  constructor
  · intro env grid sheetName values vio hr am hw hletter hmatch
    have h1 : ((getTableLayout grid sheetName hr).1.width == 0) = false := by
      simp only [beq_eq_false_iff_ne, ne_eq]
      omega
    have hmax : maxColFromInput (getTableLayout grid sheetName hr).1 values = 0 := by
      unfold maxColFromInput
      rw [hletter]
      rfl
    have hrow := buildAppendRow_all_empty (getTableLayout grid sheetName hr).1
      values hletter (fun i hi => (hmatch i hi).1) (fun i hi => (hmatch i hi).2)
    simp only [appendRows, h1, Bool.false_and, Bool.false_eq_true, if_false,
      hmax, lt_irrefl, hrow, mutCalls_append,
      mutCalls_getTableLayout grid sheetName hr]
    rfl
  · intro env grid sheetName rowIndex setVals vio hr am h hnone
    have hnil := rowUpdatesOf_eq_nil_of_none (escapeSheetName sheetName)
      (getTableLayout grid sheetName hr).1 (ratToString rowIndex) setVals hnone
    simp only [updateByRowIndex, if_neg (not_lt.mpr h), hnil, List.isEmpty_nil,
      if_true, Bool.false_eq_true, if_false]
    exact ⟨mutCalls_getTableLayout grid sheetName hr, by trivial⟩

/-- Witness for claim C10 on the table `[["Name","Status"],["r","s"]]` with
the unresolvable key `Typo`. -/
theorem claim10_witness :
    ((0 < (getTableLayout [["Name", "Status"], ["r", "s"]] "S" none).1.width ∧
      letterColsOf (getTableLayout [["Name", "Status"], ["r", "s"]] "S" none).1
        [("Typo", "x")] = [] ∧
      (∀ i < (getTableLayout [["Name", "Status"], ["r", "s"]] "S" none).1.width,
        normLookup [("Typo", "x")] (normalizeHeader
          ((getTableLayout [["Name", "Status"], ["r", "s"]] "S"
            none).1.rawHeaders.getD i "")) = none ∧
        normLookup [("Typo", "x")] (normalizeHeader
          ((getTableLayout [["Name", "Status"], ["r", "s"]] "S"
            none).1.headers.getD i "")) = none)) ∧
      mutCalls (appendRows defaultEnv [["Name", "Status"], ["r", "s"]] "S"
          [("Typo", "x")] ⟨none, false, none, false⟩).2 =
        [RemoteCall.valuesAppend (escapeSheetName "S" ++ "!" ++
            colToLetter (getTableLayout [["Name", "Status"], ["r", "s"]] "S"
              none).1.startCol ++
            natToString (if (getTableLayout [["Name", "Status"], ["r", "s"]] "S"
                none).1.hasHeader then
              (getTableLayout [["Name", "Status"], ["r", "s"]] "S"
                none).1.headerRow
            else (getTableLayout [["Name", "Status"], ["r", "s"]] "S"
              none).1.dataStartRow))
          (vioOf ⟨none, false, none, false⟩)
          [List.replicate (getTableLayout [["Name", "Status"], ["r", "s"]] "S"
            none).1.width ""]]) ∧
    (((1 : Rat) ≤ 2 ∧
      (∀ kv ∈ ([("Typo", "x")] : List (String × String)),
        resolveSetCol (getTableLayout [["Name", "Status"], ["r", "s"]] "S"
          none).1 kv.1 = none)) ∧
      mutCalls (updateByRowIndex defaultEnv [["Name", "Status"], ["r", "s"]] "S"
        2 [("Typo", "x")] ⟨none, false, none, false⟩).2 = [] ∧
      (updateByRowIndex defaultEnv [["Name", "Status"], ["r", "s"]] "S" 2
        [("Typo", "x")] ⟨none, false, none, false⟩).1 = .ok ⟨0, "", false⟩) :=
  ⟨⟨⟨by decide, by decide, by decide⟩,
      claim10_empty_row_append.1 defaultEnv [["Name", "Status"], ["r", "s"]] "S"
        [("Typo", "x")] none none false (by decide) (by decide) (by decide)⟩,
    ⟨⟨by decide, by decide⟩,
      claim10_empty_row_append.2 defaultEnv [["Name", "Status"], ["r", "s"]] "S"
        2 [("Typo", "x")] none none false (by decide) (by decide)⟩⟩
